import Mathlib

/-!
Verification of the billing core of `django-customer-billing`.

The development shallowly embeds the data model (`billing/models.py`), the
multi-currency `Total` value type (`billing/total.py`), the invoice
generation and fund matching engines (`billing/actions/accounts.py`), the
card payment workflow (`billing/actions/invoices.py`) and the PSP gateway
(`billing/psp.py`).  Monetary amounts are exact decimals with two places in
the source; they are embedded as integers (minor units), which is faithful
because the code only adds, subtracts, negates and compares amounts.
Creation timestamps and dates are embedded as naturals.
-/

namespace Billing

/-- A single-currency monetary value (`moneyed.Money`): an exact amount
together with a currency code. -/
structure Money where
  amount : Int
  currency : String
deriving Repr, DecidableEq

/-- Multi-currency aggregate from `billing/total.py` (`class Total`): an
ordered list of `Money` entries, at most one per currency for well-formed
values (the constructor rejects duplicates). -/
structure Total where
  monies : List Money
deriving Repr, DecidableEq

namespace Total

/-- Mirrors `Total.__getitem__`: the amount held for a currency, zero when
the currency is absent. -/
def get (t : Total) (c : String) : Int :=
  match t.monies.find? (fun m => m.currency == c) with
  | some m => m.amount
  | none => 0

/-- Mirrors `Total.__add__`: entries of the left operand (with the right
operand amount added for shared currencies) followed by the right operand
entries whose currency is new. -/
def add (a b : Total) : Total :=
  ⟨(a.monies.map (fun m =>
      match b.monies.find? (fun q => q.currency == m.currency) with
      | some q => ⟨m.amount + q.amount, m.currency⟩
      | none => m)) ++
    b.monies.filter (fun q => a.monies.all (fun m => !(m.currency == q.currency)))⟩

/-- Mirrors `Total.__neg__`. -/
def neg (a : Total) : Total :=
  ⟨a.monies.map (fun m => ⟨-m.amount, m.currency⟩)⟩

/-- Mirrors `Total.__sub__`: `a + (-b)`. -/
def sub (a b : Total) : Total := a.add b.neg

/-- Mirrors `Total.__bool__`: true iff some component is nonzero. -/
def toBool (a : Total) : Bool := a.monies.any (fun m => !(m.amount == 0))

/-- Mirrors `Total.__eq__` against another `Total`: the difference has no
nonzero component. -/
def eqTotal (a b : Total) : Bool := !(a.sub b).toBool

/-- Mirrors `Total.__eq__` against the literal zero: truthiness is false. -/
def eqZero (a : Total) : Bool := !a.toBool

/-- Currency codes of all entries, in order. -/
def currencies (t : Total) : List String := t.monies.map (fun m => m.currency)

/-- Well-formedness maintained by the `Total` constructor: no two entries
share a currency. -/
def keysNodup (t : Total) : Prop := (t.monies.map (fun m => m.currency)).Nodup

instance (t : Total) : Decidable t.keysNodup := by
  unfold keysNodup; infer_instance

/-- Mirrors `Total.__init__`: building from a list of monies fails when two
entries share a currency (the `_by_currency` dict would collapse them and
its size would differ from the entry count). -/
def fromMonies (ms : List Money) : Except String Total :=
  if (ms.map (fun m => m.currency)).Nodup then .ok ⟨ms⟩
  else .error "Duplicate currency provided. All Money instances must have a unique currency."

end Total

/-- Helper: whether an `Except` result is a success. -/
def exceptOk {e a : Type} : Except e a → Bool
  | .ok _ => true
  | .error _ => false

/-- Aggregation primitive `total_amount` from `billing/models.py`: sums a
list of monies keeping each currency separate (the SQL groups rows by
currency; the embedding folds each money into the running `Total`). -/
def total_amount (ms : List Money) : Total :=
  ms.foldl (fun t m => t.add ⟨[m]⟩) ⟨[]⟩

/-- Invoice lifecycle states (`Invoice.STATUS_CHOICES`). -/
inductive InvoiceStatus
  | PENDING
  | PAID
  | CANCELLED
deriving Repr, DecidableEq

/-- Account lifecycle states (`Account.STATUS_CHOICES`). -/
inductive AccountStatus
  | OPEN
  | CLOSED
deriving Repr, DecidableEq

/-- Credit card lifecycle states (`CreditCard.STATUS_CHOICES`). -/
inductive CardStatus
  | ACTIVE
  | INACTIVE
deriving Repr, DecidableEq

/-- Product code constant used for overpayment carry-forward charges. -/
def CARRIED_FORWARD : String := "CARRIED_FORWARD"

/-- Product code constant used for the credit left over after overpayment. -/
def CREDIT_REMAINING : String := "CREDIT_REMAINING"

/-- Ledger entity `Charge` from `billing/models.py`: a signed single
currency entry; negative amounts are credits.  `created` is the creation
timestamp (a monotone counter in the embedding), `deleted` the soft-delete
flag. -/
structure Charge where
  id : Nat
  accountId : Nat
  invoiceId : Option Nat
  amount : Int
  currency : String
  productCode : String
  created : Nat
  deleted : Bool
deriving Repr, DecidableEq

/-- Ledger entity `Transaction` from `billing/models.py`: money moved via a
PSP; positive amounts are payments, only `success` rows count toward
balances. -/
structure Transaction where
  id : Nat
  accountId : Nat
  invoiceId : Option Nat
  amount : Int
  currency : String
  success : Bool
  creditCardNumber : String
  created : Nat
deriving Repr, DecidableEq

/-- Ledger entity `Invoice` from `billing/models.py`. -/
structure Invoice where
  id : Nat
  accountId : Nat
  dueDate : Nat
  status : InvoiceStatus
  created : Nat
deriving Repr, DecidableEq

/-- Ledger entity `CreditCard` from `billing/models.py`; `expiryDate` is
the stored derived expiry date, as a day number. -/
structure CreditCard where
  id : Nat
  accountId : Nat
  number : String
  expiryDate : Nat
  status : CardStatus
deriving Repr, DecidableEq

/-- Ledger entity `Account` from `billing/models.py` (only the fields the
verified operations read). -/
structure Account where
  id : Nat
  status : AccountStatus
deriving Repr, DecidableEq

/-- The durable store: all ledger rows plus a fresh-id counter standing for
the database primary key / autonow machinery. -/
structure BillingState where
  accounts : List Account
  invoices : List Invoice
  charges : List Charge
  transactions : List Transaction
  creditCards : List CreditCard
  nextId : Nat
deriving Repr, DecidableEq

/-- Mirrors `ChargeManager.get_queryset` (`Charge.objects`): the default
charge queryset excludes soft-deleted rows. -/
def chargeObjects (s : BillingState) : List Charge :=
  s.charges.filter (fun c => !c.deleted)

namespace ChargeQuerySet

/-- Mirrors `ChargeQuerySet.uninvoiced`. -/
def uninvoiced (l : List Charge) (accountId : Nat) : List Charge :=
  l.filter (fun c => c.invoiceId.isNone && c.accountId == accountId)

/-- Mirrors `ChargeQuerySet.charges`: strictly positive amounts. -/
def charges (l : List Charge) : List Charge :=
  l.filter (fun c => decide (0 < c.amount))

/-- Mirrors `ChargeQuerySet.credits`: strictly negative amounts. -/
def credits (l : List Charge) : List Charge :=
  l.filter (fun c => decide (c.amount < 0))

/-- Mirrors `ChargeQuerySet.in_currency`. -/
def in_currency (l : List Charge) (currency : String) : List Charge :=
  l.filter (fun c => c.currency == currency)

end ChargeQuerySet

/-- Mirrors `Transaction.successful` (`OnlySuccessfulTransactionsManager`). -/
def transactionSuccessful (s : BillingState) : List Transaction :=
  s.transactions.filter (fun t => t.success)

namespace TransactionQuerySet

/-- Mirrors `TransactionQuerySet.uninvoiced`. -/
def uninvoiced (l : List Transaction) (accountId : Nat) : List Transaction :=
  l.filter (fun t => t.invoiceId.isNone && t.accountId == accountId)

/-- Mirrors `TransactionQuerySet.payments`: strictly positive amounts. -/
def payments (l : List Transaction) : List Transaction :=
  l.filter (fun t => decide (0 < t.amount))

/-- Mirrors `TransactionQuerySet.in_currency`. -/
def in_currency (l : List Transaction) (currency : String) : List Transaction :=
  l.filter (fun t => t.currency == currency)

end TransactionQuerySet

/-- Ordering `order_by('created')` (and `order_by('due_date')`): an
insertion sort on the requested key. -/
def orderBy {α : Type} (key : α → Nat) (l : List α) : List α :=
  List.insertionSort (fun a b => key a ≤ key b) l

/-- Monies of a list of charges, for aggregation with `total_amount`. -/
def chargeMonies (l : List Charge) : List Money :=
  l.map (fun c => ⟨c.amount, c.currency⟩)

/-- Monies of a list of transactions. -/
def transactionMonies (l : List Transaction) : List Money :=
  l.map (fun t => ⟨t.amount, t.currency⟩)

/-- Mirrors `Invoice.due`: charges linked to the invoice minus successful
transactions linked to the invoice (the default charge manager excludes
deleted rows). -/
def invoiceDue (s : BillingState) (invoiceId : Nat) : Total :=
  (total_amount (chargeMonies
      ((chargeObjects s).filter (fun c => c.invoiceId == some invoiceId)))).sub
    (total_amount (transactionMonies
      ((transactionSuccessful s).filter (fun t => t.invoiceId == some invoiceId))))

/-- The update predicate used by `create_invoices` when it reassigns
charges: `Charge.objects.uninvoiced(account_id).charges().in_currency(cur)`. -/
def invoicablePred (accountId : Nat) (currency : String) (c : Charge) : Bool :=
  !c.deleted && c.invoiceId.isNone && c.accountId == accountId &&
    decide (0 < c.amount) && c.currency == currency

/-- Loop body of `create_invoices` (`billing/actions/accounts.py`): one
iteration per money of the uninvoiced positive total; currencies with a
strictly positive amount get a new `PENDING` invoice and the matching
positive uninvoiced charges are reassigned to it. -/
def createLoop (accountId dueDate : Nat) :
    BillingState → List Money → BillingState × List Nat
  | s, [] => (s, [])
  | s, m :: rest =>
    if 0 < m.amount then
      let invId := s.nextId
      let s1 : BillingState :=
        { s with
          invoices := s.invoices ++
            [⟨invId, accountId, dueDate, .PENDING, s.nextId⟩],
          charges := s.charges.map (fun c =>
            if invoicablePred accountId m.currency c then
              { c with invoiceId := some invId }
            else c),
          nextId := s.nextId + 1 }
      let res := createLoop accountId dueDate s1 rest
      (res.1, invId :: res.2)
    else createLoop accountId dueDate s rest

/-- Mirrors `create_invoices` (`billing/actions/accounts.py`): totals the
non-deleted, uninvoiced, strictly positive charges of the account per
currency, and creates one invoice per currency of that total whose amount
is strictly positive, reassigning that currency's positive uninvoiced
charges.  Returns the new state and the created invoice ids in creation
order. -/
def create_invoices (s : BillingState) (accountId dueDate : Nat) :
    BillingState × List Nat :=
  let due_charges :=
    ChargeQuerySet.charges (ChargeQuerySet.uninvoiced (chargeObjects s) accountId)
  let total := total_amount (chargeMonies due_charges)
  createLoop accountId dueDate s total.monies

/-- Claim-side sum: total amount of the non-deleted, not-yet-invoiced
charges of an account in one currency, positives and negatives together. -/
def allUninvoicedSum (s : BillingState) (accountId : Nat) (c : String) : Int :=
  ((s.charges.filter (fun ch => !ch.deleted && ch.invoiceId.isNone &&
      ch.accountId == accountId && ch.currency == c)).map
    (fun ch => ch.amount)).sum

/-- Claim-side sum: total amount of the non-deleted, not-yet-invoiced,
strictly positive charges of an account in one currency. -/
def positiveUninvoicedSum (s : BillingState) (accountId : Nat) (c : String) :
    Int :=
  ((s.charges.filter (fun ch => invoicablePred accountId c ch)).map
    (fun ch => ch.amount)).sum

/-- Bookkeeping bound: every charge that references an invoice references
an id below the fresh-id counter (true of every state produced by the
database, whose keys are allocated by the counter). -/
def chargeRefsBounded (s : BillingState) : Bool :=
  s.charges.all (fun ch =>
    match ch.invoiceId with
    | some i => decide (i < s.nextId)
    | none => true)

/-- Concrete account state used as counterexample input: one uninvoiced
charge of 10 CHF and one uninvoiced credit of -30 CHF. -/
def cxCreditState : BillingState :=
  { accounts := [⟨0, .OPEN⟩],
    invoices := [],
    charges :=
      [⟨0, 0, none, 10, "CHF", "ACHARGE", 0, false⟩,
       ⟨1, 0, none, -30, "CHF", "ACREDIT", 1, false⟩],
    transactions := [],
    creditCards := [],
    nextId := 2 }

/-- Concrete state with a pending invoice due 10 CHF, an unassigned
successful payment of 10 CHF created before an unassigned credit of
-10 CHF (the credits-before-payments scenario). -/
def cxFundState : BillingState :=
  { accounts := [⟨0, .OPEN⟩],
    invoices := [⟨1, 0, 10, .PENDING, 1⟩],
    charges :=
      [⟨2, 0, some 1, 10, "CHF", "ACHARGE", 2, false⟩,
       ⟨4, 0, none, -10, "CHF", "ACREDIT", 4, false⟩],
    transactions := [⟨3, 0, none, 10, "CHF", true, "", 3⟩],
    creditCards := [],
    nextId := 5 }

/-- Overpayment scenario from the spec: invoice due 40 CHF, a successful
unassigned payment of 50 CHF. -/
def cxOverState : BillingState :=
  { accounts := [⟨0, .OPEN⟩],
    invoices := [⟨1, 0, 10, .PENDING, 1⟩],
    charges := [⟨2, 0, some 1, 40, "CHF", "ACHARGE", 2, false⟩],
    transactions := [⟨3, 0, none, 50, "CHF", true, "", 3⟩],
    creditCards := [],
    nextId := 4 }

/-- An open account with a pending 10 CHF invoice whose only credit card
is INACTIVE but unexpired. -/
def cxInactiveCardState : BillingState :=
  { accounts := [⟨0, .OPEN⟩],
    invoices := [⟨1, 0, 10, .PENDING, 1⟩],
    charges := [⟨2, 0, some 1, 10, "CHF", "ACHARGE", 2, false⟩],
    transactions := [],
    creditCards := [⟨3, 0, "4444", 100, .INACTIVE⟩],
    nextId := 4 }

/-- An open account with a pending 10 CHF invoice and one ACTIVE unexpired
credit card. -/
def cxPayState : BillingState :=
  { accounts := [⟨0, .OPEN⟩],
    invoices := [⟨1, 0, 10, .PENDING, 1⟩],
    charges := [⟨2, 0, some 1, 10, "CHF", "ACHARGE", 2, false⟩],
    transactions := [],
    creditCards := [⟨3, 0, "2222", 100, .ACTIVE⟩],
    nextId := 4 }

/-- An account with a positive charge and a zero-amount charge, both
uninvoiced. -/
def cxZeroState : BillingState :=
  { accounts := [⟨0, .OPEN⟩],
    invoices := [],
    charges :=
      [⟨0, 0, none, 10, "CHF", "ACHARGE", 0, false⟩,
       ⟨1, 0, none, 0, "CHF", "ZEROCH", 1, false⟩],
    transactions := [],
    creditCards := [],
    nextId := 2 }

/-- The state produced by running the pending-invoice cascade on
`cxFundState`: the credit got assigned and the invoice is paid. -/
def cxFundPaidState : BillingState :=
  { accounts := [⟨0, .OPEN⟩],
    invoices := [⟨1, 0, 10, .PAID, 1⟩],
    charges :=
      [⟨2, 0, some 1, 10, "CHF", "ACHARGE", 2, false⟩,
       ⟨4, 0, some 1, -10, "CHF", "ACREDIT", 4, false⟩],
    transactions := [⟨3, 0, none, 10, "CHF", true, "", 3⟩],
    creditCards := [],
    nextId := 5 }

/-- Polymorphic fund, as gathered by `assign_funds_to_invoice`: either a
credit (a `Charge` with negative amount) or a successful unassigned
payment (`Transaction` with positive amount). -/
inductive Fund
  | credit (c : Charge)
  | payment (t : Transaction)
deriving Repr, DecidableEq

/-- Mirrors `abs(fund.amount.amount)`: the contribution of a fund (credits
carry a negative amount). -/
def Fund.contribution : Fund → Int
  | .credit c => if c.amount < 0 then -c.amount else c.amount
  | .payment t => if t.amount < 0 then -t.amount else t.amount

/-- Mirrors `fund.invoice_id = invoice_id; fund.save()`: update the row
carrying the fund's primary key. -/
def saveFund (s : BillingState) (invoiceId : Nat) : Fund → BillingState
  | .credit c =>
    { s with charges := s.charges.map (fun ch =>
        if ch.id == c.id then { ch with invoiceId := some invoiceId }
        else ch) }
  | .payment t =>
    { s with transactions := s.transactions.map (fun tr =>
        if tr.id == t.id then { tr with invoiceId := some invoiceId }
        else tr) }

/-- Mirrors `CreditCardQuerySet.valid`: cards whose stored expiry date is
on or after the as-of day (and nothing else: the queryset does not check
the card status). -/
def validCardsQS (l : List CreditCard) (asOf : Nat) : List CreditCard :=
  l.filter (fun cc => asOf ≤ cc.expiryDate)

/-- The ordered fund list of `assign_funds_to_invoice`: unassigned credits
of the account in the invoice currency, oldest first, followed by the
successful unassigned payments of the account in the invoice currency,
oldest first. -/
def fundsFor (s : BillingState) (accountId : Nat) (currency : String) :
    List Fund :=
  (orderBy (fun c => c.created)
      (ChargeQuerySet.in_currency
        (ChargeQuerySet.uninvoiced
          (ChargeQuerySet.credits (chargeObjects s)) accountId)
        currency)).map Fund.credit ++
    (orderBy (fun t => t.created)
      (TransactionQuerySet.in_currency
        (TransactionQuerySet.uninvoiced
          (TransactionQuerySet.payments (transactionSuccessful s)) accountId)
        currency)).map Fund.payment

/-- The fund-collection loop of `assign_funds_to_invoice`: assign each
fund in order, subtract its contribution from the remaining due amount,
and break as soon as the remaining amount is ≤ 0.  Returns the updated
state and the final remaining amount. -/
def fundsLoop (invoiceId : Nat) :
    BillingState → Int → List Fund → BillingState × Int
  | s, d, [] => (s, d)
  | s, d, f :: rest =>
    let s2 := saveFund s invoiceId f
    let d2 := d - f.contribution
    if d2 ≤ 0 then (s2, d2) else fundsLoop invoiceId s2 d2 rest

/-- Mirrors `invoice.status = Invoice.PAID; invoice.save()`. -/
def markInvoicePaid (s : BillingState) (invoiceId : Nat) : BillingState :=
  { s with invoices := s.invoices.map (fun inv =>
      if inv.id == invoiceId then { inv with status := .PAID } else inv) }

/-- Mirrors the overpayment block of `assign_funds_to_invoice`: a positive
`CARRIED_FORWARD` charge linked to the invoice plus an unassigned negative
`CREDIT_REMAINING` charge of the same magnitude. -/
def addCarryForward (s : BillingState) (accountId invoiceId : Nat)
    (overpayment : Int) (currency : String) : BillingState :=
  { s with
    charges := s.charges ++
      [⟨s.nextId, accountId, some invoiceId, overpayment, currency,
          CARRIED_FORWARD, s.nextId, false⟩,
        ⟨s.nextId + 1, accountId, none, -overpayment, currency,
          CREDIT_REMAINING, s.nextId + 1, false⟩],
    nextId := s.nextId + 2 }

/-- Mirrors `assign_funds_to_invoice` (`billing/actions/accounts.py`).
`none` models the `DoesNotExist` exception of `Invoice.objects.get`;
otherwise the new state is returned together with whether the invoice
ended up `PAID`. -/
def assign_funds_to_invoice (s : BillingState) (invoiceId : Nat) :
    Option (BillingState × Bool) :=
  match s.invoices.find? (fun inv => inv.id == invoiceId) with
  | none => none
  | some invoice =>
    if invoice.status ≠ InvoiceStatus.PENDING then some (s, false)
    else
      match (invoiceDue s invoiceId).monies with
      | [m] =>
        let loopRes :=
          if 0 < m.amount then
            fundsLoop invoiceId s m.amount
              (fundsFor s invoice.accountId m.currency)
          else (s, m.amount)
        let s3 := if loopRes.2 ≤ 0 then markInvoicePaid loopRes.1 invoiceId
          else loopRes.1
        let s4 := if loopRes.2 < 0 then
            addCarryForward s3 invoice.accountId invoiceId (-loopRes.2)
              m.currency
          else s3
        some (s4, decide (loopRes.2 ≤ 0))
      | _ => some (s, false)

/-- Loop body of `assign_funds_to_account_pending_invoices`: try each
pending invoice in order, collect the ids of paid ones, stop at the first
invoice that is not fully paid. -/
def assignLoopAccount :
    BillingState → List Invoice → Option (BillingState × List Nat)
  | s, [] => some (s, [])
  | s, inv :: rest =>
    match assign_funds_to_invoice s inv.id with
    | none => none
    | some (s2, paid) =>
      if paid then
        match assignLoopAccount s2 rest with
        | none => none
        | some (s3, ids) => some (s3, inv.id :: ids)
      else some (s2, [])

/-- The account's `PENDING` invoices ordered by due date ascending
(`Invoice.objects.filter(status=PENDING, account_id=..).order_by('due_date')`). -/
def pendingByDueDate (s : BillingState) (accountId : Nat) : List Invoice :=
  orderBy (fun inv => inv.dueDate)
    (s.invoices.filter (fun inv =>
      inv.status == InvoiceStatus.PENDING && inv.accountId == accountId))

/-- Mirrors `assign_funds_to_account_pending_invoices`
(`billing/actions/accounts.py`). -/
def assign_funds_to_account_pending_invoices (s : BillingState)
    (accountId : Nat) : Option (BillingState × List Nat) :=
  assignLoopAccount s (pendingByDueDate s accountId)

/-- State reached after running the single-invoice fund assignment over a
list of invoices in order (ignoring the paid flags); used to phrase the
cascade claim. -/
def chainState (s : BillingState) : List Invoice → BillingState
  | [] => s
  | inv :: rest =>
    match assign_funds_to_invoice s inv.id with
    | none => s
    | some (s2, _) => chainState s2 rest

/-- Every invoice in the list is fully paid by `assign_funds_to_invoice`,
each call starting from the state produced by the previous one. -/
def paidChain : BillingState → List Invoice → Prop
  | _, [] => True
  | s, inv :: rest =>
    ∃ s2, assign_funds_to_invoice s inv.id = some (s2, true) ∧
      paidChain s2 rest

/-- Outcome of one PSP charge attempt as seen by the card payment
workflow: the PSP either returns (success flag) or raises. -/
inductive PSPOutcome
  | returns (success : Bool)
  | raises
deriving Repr, DecidableEq

/-- Sort key for `order_by('status')` on credit cards: the string ACTIVE
sorts before INACTIVE. -/
def statusKey : CardStatus → Nat
  | .ACTIVE => 0
  | .INACTIVE => 1

/-- Mirrors `CreditCard.objects.valid().filter(account=..).order_by('status')`
from `pay_with_account_credit_cards`: the unexpired cards of the account,
active ones first (status is NOT otherwise checked). -/
def validCardsSorted (s : BillingState) (accountId today : Nat) :
    List CreditCard :=
  orderBy (fun cc => statusKey cc.status)
    ((validCardsQS s.creditCards today).filter
      (fun cc => cc.accountId == accountId))

/-- Card attempt loop of `pay_with_account_credit_cards`: for each card,
call the PSP; on a returned outcome record a `Transaction` (success or
failure); on success mark the invoice paid and return the transaction
immediately; an exception from the PSP call is caught and the next card is
tried, recording nothing. -/
def payLoop (psp : CreditCard → PSPOutcome) (accountId invoiceId : Nat)
    (m : Money) :
    BillingState → List CreditCard → BillingState × Option Transaction
  | s, [] => (s, none)
  | s, card :: rest =>
    match psp card with
    | .raises => payLoop psp accountId invoiceId m s rest
    | .returns success =>
      let payment : Transaction :=
        ⟨s.nextId, accountId, some invoiceId, m.amount, m.currency, success,
          card.number, s.nextId⟩
      let s2 : BillingState :=
        { s with transactions := s.transactions ++ [payment],
                 nextId := s.nextId + 1 }
      if success then (markInvoicePaid s2 invoiceId, some payment)
      else payLoop psp accountId invoiceId m s2 rest

/-- The number of card attempts of `payLoop` for which the PSP call
returned (rather than raised), up to and including the first success:
exactly the number of `Transaction` rows the loop records. -/
def attemptCount (psp : CreditCard → PSPOutcome) : List CreditCard → Nat
  | [] => 0
  | card :: rest =>
    match psp card with
    | .raises => attemptCount psp rest
    | .returns true => 1
    | .returns false => attemptCount psp rest + 1

/-- Mirrors `pay_with_account_credit_cards` (`billing/actions/invoices.py`):
precondition errors modelled as `Except.error` with the source message;
otherwise the new state plus the successful transaction (or `none` when
every card failed). -/
def pay_with_account_credit_cards (psp : CreditCard → PSPOutcome)
    (today : Nat) (s : BillingState) (invoiceId : Nat) :
    Except String (BillingState × Option Transaction) :=
  match s.invoices.find? (fun inv => inv.id == invoiceId) with
  | none => .error "Invoice matching query does not exist."
  | some invoice =>
    match s.accounts.find? (fun a => a.id == invoice.accountId) with
    | none => .error "Account matching query does not exist."
    | some account =>
      if account.status = AccountStatus.CLOSED then
        .error "Cannot pay invoice with closed account."
      else if invoice.status ≠ InvoiceStatus.PENDING then
        .error "Cannot pay invoice with status not PENDING."
      else
        match (invoiceDue s invoiceId).monies with
        | [] => .error "Cannot pay empty invoice."
        | [m] =>
          if m.amount ≤ 0 then
            .error "Cannot pay invoice with non-positive amount."
          else
            match validCardsSorted s invoice.accountId today with
            | [] => .error "No valid credit card on account."
            | cards =>
              .ok (payLoop psp invoice.accountId invoiceId m s cards)
        | _ => .error "Cannot pay invoice with more than one currency."

/-- The PSP interface of `billing/psp.py` (`class PSP`): implementations
charge a card and refund a payment, given the object path inside the PSP,
the amount and a client reference. -/
structure PSP where
  charge_credit_card : String → Money → String → Bool × String
  refund_payment : String → Money → String → Bool × String

/-- Mirrors `psp_for_scheme`: look the scheme up in the registry, raising
(`Except.error`) when no PSP is registered for it. -/
def psp_for_scheme (registry : List (String × PSP)) (scheme : String) :
    Except String PSP :=
  match registry.find? (fun e => e.1 == scheme) with
  | some e => .ok e.2
  | none => .error ("No PSP registered for scheme " ++ scheme)

/-- Split a character list at the first colon (`str.split(..., 1)`). -/
def splitFirstColon : List Char → Option (List Char × List Char)
  | [] => none
  | ch :: rest =>
    if ch = ':' then some ([], rest)
    else
      match splitFirstColon rest with
      | none => none
      | some (a, b) => some (ch :: a, b)

/-- Mirrors `_parse_uri`: split a PSP uri into scheme and path at the
first colon; no colon models the unpacking `ValueError`. -/
def parse_uri (uri : String) : Option (String × String) :=
  match splitFirstColon uri.toList with
  | none => none
  | some (a, b) => some (⟨a⟩, ⟨b⟩)

/-- Mirrors `_unparse_uri`. -/
def unparse_uri (scheme path : String) : String :=
  scheme ++ ":" ++ path

/-- Mirrors the client operation `charge_credit_card` of `billing/psp.py`:
parse the uri, dispatch to the registered PSP for the scheme, and return
its result with the payment path re-wrapped into a uri.  Note: the
function performs no check on the amount. -/
def psp_charge_credit_card (registry : List (String × PSP))
    (credit_card_psp_uri : String) (amount : Money) (client_ref : String) :
    Except String (Bool × String) :=
  match parse_uri credit_card_psp_uri with
  | none => .error "ValueError: not a psp uri"
  | some (scheme, path) =>
    match psp_for_scheme registry scheme with
    | .error e => .error e
    | .ok p =>
      let r := p.charge_credit_card path amount client_ref
      .ok (r.1, unparse_uri scheme r.2)

/-- Mirrors the client operation `refund_payment` of `billing/psp.py`;
again no amount check is performed. -/
def psp_refund_payment (registry : List (String × PSP))
    (payment_psp_uri : String) (amount : Money) (client_ref : String) :
    Except String (Bool × String) :=
  match parse_uri payment_psp_uri with
  | none => .error "ValueError: not a psp uri"
  | some (scheme, path) =>
    match psp_for_scheme registry scheme with
    | .error e => .error e
    | .ok p =>
      let r := p.refund_payment path amount client_ref
      .ok (r.1, unparse_uri scheme r.2)

/-- A recording test double in the spirit of `tests/my_psp.py`: it always
succeeds and echoes the object path it was invoked on, so a theorem can
observe that the registered implementation really was called. -/
def myPSP : PSP :=
  ⟨fun path _ _ => (true, "payment_" ++ path),
    fun path _ _ => (true, "refund_" ++ path)⟩

/-- Ledger operations considered by the zero-charge inertness claim. -/
inductive BillingOp
  | createInv (accountId dueDate : Nat)
  | assignFunds (invoiceId : Nat)
deriving Repr, DecidableEq

/-- Apply one operation to the state (a raised `DoesNotExist` leaves the
state unchanged). -/
def applyOp (s : BillingState) : BillingOp → BillingState
  | .createInv accountId dueDate => (create_invoices s accountId dueDate).1
  | .assignFunds invoiceId =>
    match assign_funds_to_invoice s invoiceId with
    | none => s
    | some (s2, _) => s2

/-- Apply a sequence of operations in order. -/
def applyOps (s : BillingState) (ops : List BillingOp) : BillingState :=
  ops.foldl applyOp s

/-- Claim-side invariant: every zero-amount charge is unassigned. -/
def zeroChargesUninvoiced (s : BillingState) : Prop :=
  ∀ ch ∈ s.charges, ch.amount = 0 → ch.invoiceId = none

instance (s : BillingState) : Decidable (zeroChargesUninvoiced s) := by
  unfold zeroChargesUninvoiced; infer_instance

/-- Database well-formedness of charge primary keys: unique and below the
fresh-id counter. -/
def chargeIdsOk (s : BillingState) : Prop :=
  (s.charges.map (fun c => c.id)).Nodup ∧ ∀ c ∈ s.charges, c.id < s.nextId

instance (s : BillingState) : Decidable (chargeIdsOk s) := by
  unfold chargeIdsOk; infer_instance

/-- Database well-formedness of transaction primary keys. -/
def txnIdsOk (s : BillingState) : Prop :=
  (s.transactions.map (fun t => t.id)).Nodup ∧
    ∀ t ∈ s.transactions, t.id < s.nextId

instance (s : BillingState) : Decidable (txnIdsOk s) := by
  unfold txnIdsOk; infer_instance

/-- Claim-side count: number of funds the matching loop consumes — the
length of the shortest prefix whose cumulative contribution brings the
remaining due amount to zero or below, or the whole list when the funds
never cover it. -/
def stopCount (d : Int) : List Int → Nat
  | [] => 0
  | c :: rest => if d - c ≤ 0 then 1 else stopCount (d - c) rest + 1

/-- The fund's row (found by primary key in its table) is assigned to the
invoice. -/
def fundAssignedIn (s : BillingState) (invoiceId : Nat) : Fund → Prop
  | .credit c => ∃ ch ∈ s.charges, ch.id = c.id ∧ ch.invoiceId = some invoiceId
  | .payment t =>
    ∃ tr ∈ s.transactions, tr.id = t.id ∧ tr.invoiceId = some invoiceId

instance (s : BillingState) (invoiceId : Nat) (f : Fund) :
    Decidable (fundAssignedIn s invoiceId f) := by
  cases f <;> (unfold fundAssignedIn; infer_instance)

/-- The fund's row is still unassigned. -/
def fundUnassignedIn (s : BillingState) : Fund → Prop
  | .credit c => ∃ ch ∈ s.charges, ch.id = c.id ∧ ch.invoiceId = none
  | .payment t => ∃ tr ∈ s.transactions, tr.id = t.id ∧ tr.invoiceId = none

instance (s : BillingState) (f : Fund) :
    Decidable (fundUnassignedIn s f) := by
  cases f <;> (unfold fundUnassignedIn; infer_instance)

/-- Table-and-key discriminator of a fund. -/
def fundKey : Fund → Bool × Nat
  | .credit c => (false, c.id)
  | .payment t => (true, t.id)

/-- Ids of the credit funds of a list. -/
def creditIds (fs : List Fund) : List Nat :=
  fs.filterMap (fun f => match f with
    | .credit c => some c.id
    | .payment _ => none)

/-- Ids of the payment funds of a list. -/
def paymentIds (fs : List Fund) : List Nat :=
  fs.filterMap (fun f => match f with
    | .credit _ => none
    | .payment t => some t.id)

/-- Sum of the (signed) amounts of the credit funds of a list. -/
def creditAmountSum (fs : List Fund) : Int :=
  (fs.filterMap (fun f => match f with
    | .credit c => some c.amount
    | .payment _ => none)).sum

/-- Sum of the (signed) amounts of the payment funds of a list. -/
def paymentAmountSum (fs : List Fund) : Int :=
  (fs.filterMap (fun f => match f with
    | .credit _ => none
    | .payment t => some t.amount)).sum

/-- Signed amount contributed to the linked charges of an invoice, in one
currency, by a charge list. -/
def linkedChargeAmount (cs : List Charge) (invoiceId : Nat) (cur : String) :
    Int :=
  ((cs.filter (fun c => !c.deleted && c.invoiceId == some invoiceId &&
      c.currency == cur)).map (fun c => c.amount)).sum

/-- Signed amount contributed to the linked successful transactions of an
invoice, in one currency, by a transaction list. -/
def linkedTxnAmount (ts : List Transaction) (invoiceId : Nat)
    (cur : String) : Int :=
  ((ts.filter (fun t => t.success && t.invoiceId == some invoiceId &&
      t.currency == cur)).map (fun t => t.amount)).sum

namespace Total

lemma find?_map_currency {l : List Money} {f : Money → Money} {c : String}
    (hf : ∀ m, (f m).currency = m.currency) :
    (l.map f).find? (fun m => m.currency == c) =
      (l.find? (fun m => m.currency == c)).map f := by
  induction l with
  | nil => rfl
  | cons h t ih =>
    simp only [List.map_cons, List.find?]
    rw [hf h]
    cases hh : (h.currency == c) with
    | true => simp
    | false => simpa using ih

lemma find?_filter_keep {α : Type} {p keep : α → Bool} {l : List α}
    (h : ∀ x, p x = true → keep x = true) :
    (l.filter keep).find? p = l.find? p := by
  induction l with
  | nil => rfl
  | cons a t ih =>
    by_cases hk : keep a = true
    · rw [List.filter_cons_of_pos hk]
      simp only [List.find?]
      cases hp : p a <;> simp [ih]
    · have hpa : p a = false := by
        cases hpa : p a
        · rfl
        · exact absurd (h a hpa) hk
      rw [List.filter_cons_of_neg hk]
      simp only [List.find?, hpa, ih]

lemma get_add (a b : Total) (c : String) :
    (a.add b).get c = a.get c + b.get c := by
  unfold get add
  simp only
  rw [List.find?_append]
  rw [find?_map_currency (l := a.monies) (c := c)
    (f := fun m =>
      match b.monies.find? (fun q => q.currency == m.currency) with
      | some q => ⟨m.amount + q.amount, m.currency⟩
      | none => m)]
  · cases hfa : a.monies.find? (fun m => m.currency == c) with
    | some m0 =>
      have hc : m0.currency = c := by
        have := List.find?_some hfa
        simpa using this
      simp only [Option.map_some', Option.or]
      rw [hc]
      cases hfb : b.monies.find? (fun q => q.currency == c) <;> simp
    | none =>
      simp only [Option.map_none', Option.or]
      have hnone : ∀ m ∈ a.monies, (m.currency == c) = false := by
        intro m hm
        simpa using List.find?_eq_none.mp hfa m hm
      rw [find?_filter_keep]
      · cases hfb : b.monies.find? (fun q => q.currency == c) <;> simp
      · intro q hq
        have hqc : q.currency = c := by simpa using hq
        simp only [List.all_eq_true]
        intro m hm
        have hm2 := hnone m hm
        simp only [Bool.not_eq_true']
        rw [hqc]
        exact hm2
  · intro m
    cases b.monies.find? (fun q => q.currency == m.currency) <;> rfl

lemma get_neg (a : Total) (c : String) : (a.neg).get c = -(a.get c) := by
  unfold get neg
  simp only
  rw [find?_map_currency (l := a.monies) (c := c)
    (f := fun m => ⟨-m.amount, m.currency⟩)]
  · cases a.monies.find? (fun m => m.currency == c) <;> simp
  · intro m; rfl

lemma get_sub (a b : Total) (c : String) :
    (a.sub b).get c = a.get c - b.get c := by
  unfold sub
  rw [get_add, get_neg]
  ring

lemma currencies_add (a b : Total) :
    (a.add b).currencies =
      a.currencies ++
        (b.monies.filter
          (fun q => a.monies.all (fun m => !(m.currency == q.currency)))).map
            (fun m => m.currency) := by
  unfold currencies add
  simp only [List.map_append, List.map_map]
  congr 1
  apply List.map_congr_left
  intro m _
  simp only [Function.comp_apply]
  cases b.monies.find? (fun q => q.currency == m.currency) <;> rfl

lemma keysNodup_add {a b : Total} (ha : a.keysNodup) (hb : b.keysNodup) :
    (a.add b).keysNodup := by
  unfold keysNodup
  have h := currencies_add a b
  unfold currencies at h
  rw [h]
  apply List.Nodup.append
  · exact ha
  · exact (hb.sublist ((List.filter_sublist _).map _))
  · intro c hca hcb
    simp only [List.mem_map] at hcb
    obtain ⟨q, hq, hqc⟩ := hcb
    have hkeep := (List.mem_filter.mp hq).2
    simp only [List.all_eq_true] at hkeep
    simp only [List.mem_map] at hca
    obtain ⟨m, hm, hmc⟩ := hca
    have hmq := hkeep m hm
    simp only [Bool.not_eq_eq_eq_not, Bool.not_true, beq_eq_false_iff_ne,
      ne_eq] at hmq
    exact hmq (hmc.trans hqc.symm)

lemma keysNodup_neg {a : Total} (ha : a.keysNodup) : (a.neg).keysNodup := by
  unfold keysNodup neg at *
  simpa using ha

lemma keysNodup_sub {a b : Total} (ha : a.keysNodup) (hb : b.keysNodup) :
    (a.sub b).keysNodup :=
  keysNodup_add ha (keysNodup_neg hb)

lemma entry_amount_eq_get_list :
    ∀ (l : List Money), (l.map (fun m => m.currency)).Nodup →
      ∀ m ∈ l, Total.get ⟨l⟩ m.currency = m.amount := by
  intro l
  induction l with
  | nil => intro _ m hm; cases hm
  | cons h rest ih =>
    intro hnd m hm
    rcases List.mem_cons.mp hm with heq | hmem
    · subst heq
      simp [get, List.find?]
    · have hne : (h.currency == m.currency) = false := by
        simp only [List.map_cons, List.nodup_cons, List.mem_map] at hnd
        rw [beq_eq_false_iff_ne]
        intro hcontra
        exact hnd.1 ⟨m, hmem, hcontra.symm⟩
      have hrest : (rest.map (fun m => m.currency)).Nodup := by
        simp only [List.map_cons, List.nodup_cons] at hnd
        exact hnd.2
      have := ih hrest m hmem
      simpa [get, List.find?, hne] using this

lemma entry_amount_eq_get {t : Total} (ht : t.keysNodup) :
    ∀ m ∈ t.monies, t.get m.currency = m.amount := by
  obtain ⟨l⟩ := t
  exact entry_amount_eq_get_list l ht

lemma toBool_eq_false_iff (t : Total) :
    t.toBool = false ↔ ∀ m ∈ t.monies, m.amount = 0 := by
  unfold toBool
  simp [List.any_eq_false]

lemma eqTotal_of_get_eq {a b : Total} (ha : a.keysNodup) (hb : b.keysNodup)
    (h : ∀ c, a.get c = b.get c) : a.eqTotal b = true := by
  unfold eqTotal
  rw [Bool.not_eq_true']
  rw [toBool_eq_false_iff]
  intro m hm
  have hnd : (a.sub b).keysNodup := keysNodup_sub ha hb
  have := entry_amount_eq_get hnd m hm
  rw [← this, get_sub, h m.currency]
  ring

lemma eqZero_of_get_eq_zero {a : Total} (ha : a.keysNodup)
    (h : ∀ c, a.get c = 0) : a.eqZero = true := by
  unfold eqZero
  rw [Bool.not_eq_true', toBool_eq_false_iff]
  intro m hm
  have := entry_amount_eq_get ha m hm
  rw [← this, h]

end Total

/-- C9: for all well-formed Totals `a`, `b`: `(a + b) - b == a`; `a - a`
compares equal to zero (is falsy); the empty `Total` compares equal to the
literal zero; and building a `Total` from a list of monies succeeds exactly
when no currency appears twice. -/
theorem claim_C9_total_arithmetic (a b : Total) (ms : List Money)
    (ha : a.keysNodup) (hb : b.keysNodup) :
    Total.eqTotal ((a.add b).sub b) a = true ∧
    Total.eqZero (a.sub a) = true ∧
    Total.eqZero ⟨[]⟩ = true ∧
    exceptOk (Total.fromMonies ms) =
      decide ((ms.map (fun m => m.currency)).Nodup) := by
  refine ⟨?_, ?_, ?_, ?_⟩
  · apply Total.eqTotal_of_get_eq (Total.keysNodup_sub (Total.keysNodup_add ha hb) hb) ha
    intro c
    rw [Total.get_sub, Total.get_add]
    ring
  · apply Total.eqZero_of_get_eq_zero (Total.keysNodup_sub ha ha)
    intro c
    rw [Total.get_sub]
    ring
  · rfl
  · unfold Total.fromMonies
    split
    · next h => simp [exceptOk, h]
    · next h => simp [exceptOk, h]

/-- Witness for C9 at concrete totals: 3 CHF, and (5 EUR, 2 CHF), with a
duplicate-currency construction attempt. -/
theorem claim_C9_total_arithmetic_witness :
    Total.keysNodup ⟨[⟨3, "CHF"⟩]⟩ ∧
    Total.keysNodup ⟨[⟨5, "EUR"⟩, ⟨2, "CHF"⟩]⟩ ∧
    (Total.eqTotal
        ((Total.add ⟨[⟨3, "CHF"⟩]⟩ ⟨[⟨5, "EUR"⟩, ⟨2, "CHF"⟩]⟩).sub
          ⟨[⟨5, "EUR"⟩, ⟨2, "CHF"⟩]⟩) ⟨[⟨3, "CHF"⟩]⟩ = true ∧
      Total.eqZero (Total.sub ⟨[⟨3, "CHF"⟩]⟩ ⟨[⟨3, "CHF"⟩]⟩) = true ∧
      Total.eqZero ⟨[]⟩ = true ∧
      exceptOk (Total.fromMonies [⟨1, "CHF"⟩, ⟨2, "CHF"⟩]) =
        decide (([⟨1, "CHF"⟩, ⟨2, "CHF"⟩].map
          (fun (m : Money) => m.currency)).Nodup)) :=
  ⟨by decide, by decide,
    claim_C9_total_arithmetic ⟨[⟨3, "CHF"⟩]⟩ ⟨[⟨5, "EUR"⟩, ⟨2, "CHF"⟩]⟩
      [⟨1, "CHF"⟩, ⟨2, "CHF"⟩] (by decide) (by decide)⟩

lemma total_amount_foldl_keysNodup (l : List Money) :
    ∀ t : Total, t.keysNodup →
      (l.foldl (fun t m => t.add ⟨[m]⟩) t).keysNodup := by
  induction l with
  | nil => intro t ht; exact ht
  | cons m rest ih =>
    intro t ht
    exact ih _ (Total.keysNodup_add ht (by simp [Total.keysNodup]))

lemma total_amount_keysNodup (l : List Money) : (total_amount l).keysNodup :=
  total_amount_foldl_keysNodup l ⟨[]⟩ (by simp [Total.keysNodup])

lemma get_single (m : Money) (c : String) :
    Total.get ⟨[m]⟩ c = if m.currency == c then m.amount else 0 := by
  unfold Total.get
  simp only [List.find?]
  cases h : (m.currency == c) <;> simp

lemma total_amount_foldl_get (l : List Money) :
    ∀ (t : Total) (c : String),
      (l.foldl (fun t m => t.add ⟨[m]⟩) t).get c =
        t.get c + ((l.filter (fun m => m.currency == c)).map
          (fun m => m.amount)).sum := by
  induction l with
  | nil => intro t c; simp
  | cons m rest ih =>
    intro t c
    simp only [List.foldl_cons]
    rw [ih]
    rw [Total.get_add, get_single]
    cases h : (m.currency == c) with
    | true => simp [List.filter_cons, h]; ring
    | false => simp [List.filter_cons, h]

lemma total_amount_get (l : List Money) (c : String) :
    (total_amount l).get c =
      ((l.filter (fun m => m.currency == c)).map (fun m => m.amount)).sum := by
  unfold total_amount
  rw [total_amount_foldl_get]
  simp [Total.get]

lemma mem_currencies_add_single (a : Total) (m : Money) (c : String) :
    c ∈ (a.add ⟨[m]⟩).currencies ↔ c ∈ a.currencies ∨ c = m.currency := by
  rw [show (a.add ⟨[m]⟩).currencies =
      a.currencies ++ (([m].filter
        (fun q => a.monies.all (fun x => !(x.currency == q.currency)))).map
          (fun x => x.currency)) from Total.currencies_add a ⟨[m]⟩]
  rw [List.mem_append]
  cases hkeep : (a.monies.all (fun x => !(x.currency == m.currency))) with
  | true => simp [List.filter_cons, hkeep, eq_comm]
  | false =>
    have hmem : m.currency ∈ a.currencies := by
      have h2 := List.all_eq_false.mp hkeep
      obtain ⟨x, hx, hxc⟩ := h2
      have hxc2 : x.currency = m.currency := by
        cases hb : (x.currency == m.currency)
        · rw [hb] at hxc; simp at hxc
        · simpa using hb
      exact List.mem_map.mpr ⟨x, hx, hxc2⟩
    simp only [List.filter_cons, hkeep, Bool.false_eq_true, if_false,
      List.filter_nil, List.map_nil, List.not_mem_nil, or_false]
    constructor
    · exact Or.inl
    · rintro (h | h)
      · exact h
      · exact h ▸ hmem

lemma total_amount_foldl_mem_currencies (l : List Money) :
    ∀ (t : Total) (c : String),
      (c ∈ (l.foldl (fun t m => t.add ⟨[m]⟩) t).currencies ↔
        c ∈ t.currencies ∨ ∃ m ∈ l, m.currency = c) := by
  induction l with
  | nil => intro t c; simp
  | cons m rest ih =>
    intro t c
    simp only [List.foldl_cons]
    rw [ih, mem_currencies_add_single]
    constructor
    · rintro ((h | h) | h)
      · exact Or.inl h
      · exact Or.inr ⟨m, by simp, h.symm⟩
      · obtain ⟨x, hx, hxc⟩ := h
        exact Or.inr ⟨x, by simp [hx], hxc⟩
    · rintro (h | ⟨x, hx, hxc⟩)
      · exact Or.inl (Or.inl h)
      · rcases List.mem_cons.mp hx with heq | hmem
        · subst heq; exact Or.inl (Or.inr hxc.symm)
        · exact Or.inr ⟨x, hmem, hxc⟩

lemma total_amount_mem_currencies (l : List Money) (c : String) :
    c ∈ (total_amount l).currencies ↔ ∃ m ∈ l, m.currency = c := by
  unfold total_amount
  rw [total_amount_foldl_mem_currencies]
  simp [Total.currencies]

lemma total_amount_entry_pos {l : List Money}
    (hl : ∀ m ∈ l, 0 < m.amount) :
    ∀ e ∈ (total_amount l).monies, 0 < e.amount := by
  intro e he
  have hget := Total.entry_amount_eq_get (total_amount_keysNodup l) e he
  have hmem : e.currency ∈ (total_amount l).currencies :=
    List.mem_map.mpr ⟨e, he, rfl⟩
  obtain ⟨m, hm, hmc⟩ := (total_amount_mem_currencies l e.currency).mp hmem
  rw [← hget, total_amount_get]
  apply List.sum_pos
  · intro x hx
    simp only [List.mem_map] at hx
    obtain ⟨q, hq, hqa⟩ := hx
    exact hqa ▸ hl q (List.mem_of_mem_filter hq)
  · have : m ∈ l.filter (fun q => q.currency == e.currency) :=
      List.mem_filter.mpr ⟨hm, by simp [hmc]⟩
    intro hnil
    rw [List.map_eq_nil_iff] at hnil
    rw [hnil] at this
    cases this

lemma invoicablePred_iff (accountId : Nat) (cur : String) (c : Charge) :
    invoicablePred accountId cur c = true ↔
      (c.deleted = false ∧ c.invoiceId = none ∧ c.accountId = accountId ∧
        0 < c.amount ∧ c.currency = cur) := by
  unfold invoicablePred
  simp [Option.isNone_iff_eq_none, and_assoc]

lemma invoicablePred_currency {accountId : Nat} {cur : String} {c : Charge}
    (h : invoicablePred accountId cur c = true) : c.currency = cur :=
  ((invoicablePred_iff accountId cur c).mp h).2.2.2.2

lemma invoicablePred_self {accountId : Nat} {cur : String} {c : Charge}
    (h : invoicablePred accountId cur c = true) :
    invoicablePred accountId c.currency c = true := by
  rw [invoicablePred_iff] at h ⊢
  exact ⟨h.1, h.2.1, h.2.2.1, h.2.2.2.1, rfl⟩

lemma invoicablePred_of_self {accountId : Nat} {cur : String} {c : Charge}
    (h : invoicablePred accountId c.currency c = true) (hc : c.currency = cur) :
    invoicablePred accountId cur c = true := by
  rw [invoicablePred_iff] at h ⊢
  exact ⟨h.1, h.2.1, h.2.2.1, h.2.2.2.1, hc⟩

lemma createLoop_eq (accountId dueDate : Nat) :
    ∀ (ms : List Money) (s : BillingState),
      (ms.map (fun m => m.currency)).Nodup →
      (∀ m ∈ ms, 0 < m.amount) →
      createLoop accountId dueDate s ms =
        ({ s with
            invoices := s.invoices ++ (List.range ms.length).map (fun i =>
              ⟨s.nextId + i, accountId, dueDate, .PENDING, s.nextId + i⟩),
            charges := s.charges.map (fun c =>
              if invoicablePred accountId c.currency c &&
                  (ms.map (fun m => m.currency)).contains c.currency then
                { c with invoiceId := some (s.nextId +
                    (ms.map (fun m => m.currency)).indexOf c.currency) }
              else c),
            nextId := s.nextId + ms.length },
          (List.range ms.length).map (fun i => s.nextId + i)) := by
  intro ms
  induction ms with
  | nil =>
    intro s _ _
    simp only [createLoop, List.length_nil, List.range_zero, List.map_nil,
      List.append_nil, Nat.add_zero]
    have hpt : ∀ c ∈ s.charges,
        (if invoicablePred accountId c.currency c &&
            List.contains ([] : List String) c.currency then
          { c with invoiceId := some (s.nextId +
              List.indexOf c.currency ([] : List String)) }
        else c) = c := by
      intro c _
      rw [if_neg]
      simp [List.contains]
    rw [List.map_congr_left hpt]
    simp
  | cons m rest ih =>
    intro s hnd hpos
    have hm : 0 < m.amount := hpos m (by simp)
    have hndr : (rest.map (fun q => q.currency)).Nodup := by
      simp only [List.map_cons, List.nodup_cons] at hnd
      exact hnd.2
    have hposr : ∀ q ∈ rest, 0 < q.amount := fun q hq => hpos q (by simp [hq])
    simp only [createLoop, if_pos hm]
    rw [ih _ hndr hposr]
    simp only [List.map_cons, List.length_cons]
    congr 1
    · congr 1
      · -- invoices
        rw [List.append_assoc]
        congr 1
        rw [List.range_succ_eq_map]
        simp only [List.map_cons, List.map_map, Nat.add_zero,
          List.singleton_append]
        congr 1
        apply List.map_congr_left
        intro i _
        simp only [Function.comp_apply]
        have h1 : s.nextId + (i + 1) = s.nextId + 1 + i := by omega
        rw [show Nat.succ i = i + 1 from rfl, h1]
      · -- charges
        rw [List.map_map]
        apply List.map_congr_left
        intro c _
        simp only [Function.comp_apply]
        by_cases h0 : invoicablePred accountId m.currency c = true
        · rw [if_pos h0]
          rw [if_neg (by simp [invoicablePred])]
          have hcur : c.currency = m.currency := invoicablePred_currency h0
          have hself : invoicablePred accountId c.currency c = true :=
            invoicablePred_self h0
          have hcont : List.contains (m.currency ::
              rest.map (fun q => q.currency)) c.currency = true := by
            rw [hcur]
            simp [List.contains_cons]
          rw [if_pos (by rw [hself, hcont]; rfl)]
          have hidx : List.indexOf c.currency (m.currency ::
              rest.map (fun q => q.currency)) = 0 := by
            rw [hcur]
            exact List.indexOf_cons_self _ _
          rw [hidx]
          simp
        · rw [if_neg h0]
          by_cases hb : invoicablePred accountId c.currency c = true
          · have hnem : c.currency ≠ m.currency := by
              intro hceq
              exact h0 (invoicablePred_of_self hb hceq)
            have hidx : List.indexOf c.currency (m.currency ::
                rest.map (fun q => q.currency)) =
                  List.indexOf c.currency (rest.map (fun q => q.currency)) +
                    1 := by
              rw [List.indexOf_cons_ne _ (Ne.symm hnem)]
            by_cases hc : (List.contains (rest.map (fun q => q.currency))
                c.currency) = true
            · have hcont : List.contains (m.currency ::
                  rest.map (fun q => q.currency)) c.currency = true := by
                simp only [List.contains_cons]
                rw [hc]
                simp
              rw [if_pos (by rw [hb, hc]; rfl), if_pos (by rw [hb, hcont]; rfl)]
              have h2 : s.nextId + 1 +
                  List.indexOf c.currency (rest.map (fun q => q.currency)) =
                    s.nextId + List.indexOf c.currency (m.currency ::
                      rest.map (fun q => q.currency)) := by
                rw [hidx]; omega
              rw [h2]
            · have hc2 : List.contains (rest.map (fun q => q.currency))
                  c.currency = false := by
                simpa using hc
              have hcont : List.contains (m.currency ::
                  rest.map (fun q => q.currency)) c.currency = false := by
                simp only [List.contains_cons, hc2, Bool.or_false,
                  beq_eq_false_iff_ne, ne_eq]
                exact hnem
              rw [if_neg (by rw [hc2]; simp), if_neg (by rw [hcont]; simp)]
          · have hb2 : invoicablePred accountId c.currency c = false := by
              simpa using hb
            rw [if_neg (by rw [hb2]; simp), if_neg (by rw [hb2]; simp)]
      · -- nextId
        omega
    · -- created invoice ids
      rw [List.range_succ_eq_map]
      simp only [List.map_cons, List.map_map, Nat.add_zero]
      congr 1
      apply List.map_congr_left
      intro i _
      simp only [Function.comp_apply]
      omega

lemma positiveUninvoicedSum_pos_iff (s : BillingState) (accountId : Nat)
    (c : String) :
    0 < positiveUninvoicedSum s accountId c ↔
      ∃ ch ∈ s.charges, invoicablePred accountId c ch = true := by
  unfold positiveUninvoicedSum
  constructor
  · intro hsum
    rcases hf : s.charges.filter (fun ch => invoicablePred accountId c ch) with
        _ | ⟨ch, rest⟩
    · rw [hf] at hsum; simp at hsum
    · have : ch ∈ s.charges.filter (fun ch => invoicablePred accountId c ch) := by
        rw [hf]; simp
      have hm := List.mem_filter.mp this
      exact ⟨ch, hm.1, hm.2⟩
  · intro ⟨ch, hch, hpred⟩
    apply List.sum_pos
    · intro x hx
      simp only [List.mem_map] at hx
      obtain ⟨q, hq, hqa⟩ := hx
      have := (List.mem_filter.mp hq).2
      rw [invoicablePred_iff] at this
      exact hqa ▸ this.2.2.2.1
    · have hmem : ch ∈ s.charges.filter
          (fun ch => invoicablePred accountId c ch) :=
        List.mem_filter.mpr ⟨hch, hpred⟩
      intro hnil
      rw [List.map_eq_nil_iff] at hnil
      rw [hnil] at hmem
      cases hmem

lemma mem_dueMonies_iff (s : BillingState) (accountId : Nat) (c : String) :
    (∃ m ∈ chargeMonies (ChargeQuerySet.charges
        (ChargeQuerySet.uninvoiced (chargeObjects s) accountId)),
      m.currency = c) ↔
      ∃ ch ∈ s.charges, invoicablePred accountId c ch = true := by
  unfold chargeMonies ChargeQuerySet.charges ChargeQuerySet.uninvoiced
    chargeObjects
  constructor
  · rintro ⟨m, hm, hmc⟩
    simp only [List.mem_map, List.mem_filter] at hm
    obtain ⟨ch, ⟨⟨⟨hch, hdel⟩, hun⟩, hampos⟩, hchm⟩ := hm
    refine ⟨ch, hch, ?_⟩
    rw [invoicablePred_iff]
    simp only [Bool.and_eq_true, Option.isNone_iff_eq_none, beq_iff_eq] at hun
    refine ⟨by simpa using hdel, hun.1, hun.2, by simpa using hampos, ?_⟩
    rw [← hmc, ← hchm]
  · rintro ⟨ch, hch, hpred⟩
    rw [invoicablePred_iff] at hpred
    refine ⟨⟨ch.amount, ch.currency⟩, ?_, hpred.2.2.2.2⟩
    simp only [List.mem_map, List.mem_filter]
    exact ⟨ch, ⟨⟨⟨hch, by simp [hpred.1]⟩,
      by simp [hpred.2.1, hpred.2.2.1]⟩, by simp [hpred.2.2.2.1]⟩, rfl⟩

lemma dueMonies_pos (s : BillingState) (accountId : Nat) :
    ∀ m ∈ chargeMonies (ChargeQuerySet.charges
        (ChargeQuerySet.uninvoiced (chargeObjects s) accountId)),
      0 < m.amount := by
  intro m hm
  unfold chargeMonies ChargeQuerySet.charges at hm
  simp only [List.mem_map, List.mem_filter] at hm
  obtain ⟨ch, ⟨_, hpos⟩, hchm⟩ := hm
  rw [← hchm]
  simpa using hpos

/-- C1 as stated in the specification is false: with one uninvoiced charge
of 10 CHF and one uninvoiced credit of -30 CHF, the combined uninvoiced
total for CHF is -20, yet `create_invoices` does create an invoice (for the
currency CHF). -/
theorem claim_C1_counterexample :
    allUninvoicedSum cxCreditState 0 "CHF" ≤ 0 ∧
    (create_invoices cxCreditState 0 5).2 = [2] ∧
    (∃ ch2 ∈ (create_invoices cxCreditState 0 5).1.charges,
      ch2.invoiceId = some 2 ∧ ch2.currency = "CHF") := by
  refine ⟨by decide, by decide, ?_⟩
  refine ⟨⟨0, 0, some 2, 10, "CHF", "ACHARGE", 0, false⟩, ?_, rfl, rfl⟩
  decide

/-- C1 (amended): `create_invoices` creates a new `PENDING` invoice holding
charges of a currency if and only if the sum of the non-deleted,
not-yet-invoiced, strictly positive charges of the account in that currency
is strictly positive (equivalently: at least one such positive charge
exists).  Credits are not part of the generation total.  Every created
invoice is `PENDING` with the requested account and due date. -/
theorem claim_C1_invoice_iff_positive_total (s : BillingState)
    (accountId dueDate : Nat) (c : String)
    (hWF : chargeRefsBounded s = true) :
    ((∃ invId ∈ (create_invoices s accountId dueDate).2,
        ∃ ch2 ∈ (create_invoices s accountId dueDate).1.charges,
          ch2.invoiceId = some invId ∧ ch2.currency = c) ↔
      0 < positiveUninvoicedSum s accountId c) ∧
    (∀ invId ∈ (create_invoices s accountId dueDate).2,
      ∃ inv ∈ (create_invoices s accountId dueDate).1.invoices,
        inv.id = invId ∧ inv.accountId = accountId ∧
          inv.dueDate = dueDate ∧ inv.status = InvoiceStatus.PENDING) := by
  have hcre : create_invoices s accountId dueDate =
      createLoop accountId dueDate s
        (total_amount (chargeMonies (ChargeQuerySet.charges
          (ChargeQuerySet.uninvoiced (chargeObjects s) accountId)))).monies :=
    rfl
  set dm := chargeMonies (ChargeQuerySet.charges
    (ChargeQuerySet.uninvoiced (chargeObjects s) accountId)) with hdm
  set ms := (total_amount dm).monies with hms
  have hnd : (ms.map (fun m => m.currency)).Nodup := total_amount_keysNodup dm
  have hpos : ∀ m ∈ ms, 0 < m.amount :=
    total_amount_entry_pos (dueMonies_pos s accountId)
  rw [hcre, createLoop_eq accountId dueDate ms s hnd hpos]
  simp only
  have hbound : ∀ ch ∈ s.charges, ∀ i, ch.invoiceId = some i →
      i < s.nextId := by
    intro ch hch i hchi
    have := List.all_eq_true.mp hWF ch hch
    rw [hchi] at this
    simpa using this
  constructor
  · constructor
    · rintro ⟨invId, hinv, ch2, hch2, hassign, hcurr⟩
      simp only [List.mem_map, List.mem_range] at hinv
      obtain ⟨i, hilt, hiid⟩ := hinv
      simp only [List.mem_map] at hch2
      obtain ⟨ch, hch, hFch⟩ := hch2
      by_cases hcond : (invoicablePred accountId ch.currency ch &&
          (ms.map (fun m => m.currency)).contains ch.currency) = true
      · rw [if_pos hcond] at hFch
        have hpred : invoicablePred accountId ch.currency ch = true :=
          ((Bool.and_eq_true _ _).mp hcond).1
        have hceq : ch.currency = c := by
          rw [← hcurr, ← hFch]
        rw [positiveUninvoicedSum_pos_iff]
        exact ⟨ch, hch, invoicablePred_of_self hpred hceq⟩
      · rw [if_neg hcond] at hFch
        rw [← hFch] at hassign
        have := hbound ch hch invId hassign
        omega
    · intro hsum
      obtain ⟨ch, hch, hpred⟩ := (positiveUninvoicedSum_pos_iff s accountId
        c).mp hsum
      have hcmem : c ∈ ms.map (fun m => m.currency) := by
        have h1 : c ∈ (total_amount dm).currencies :=
          (total_amount_mem_currencies dm c).mpr
            ((mem_dueMonies_iff s accountId c).mpr ⟨ch, hch, hpred⟩)
        simpa [Total.currencies] using h1
      have hidxlt : (ms.map (fun m => m.currency)).indexOf c <
          ms.length := by
        have := List.indexOf_lt_length.mpr hcmem
        simpa using this
      refine ⟨s.nextId + (ms.map (fun m => m.currency)).indexOf c, ?_,
        { ch with invoiceId := some (s.nextId +
            (ms.map (fun m => m.currency)).indexOf ch.currency) }, ?_, ?_, ?_⟩
      · simp only [List.mem_map, List.mem_range]
        exact ⟨(ms.map (fun m => m.currency)).indexOf c, hidxlt, rfl⟩
      · simp only [List.mem_map]
        refine ⟨ch, hch, ?_⟩
        rw [if_pos]
        have hself : invoicablePred accountId ch.currency ch = true :=
          invoicablePred_self hpred
        have hccur : ch.currency = c := invoicablePred_currency hpred
        have hcont : (ms.map (fun m => m.currency)).contains ch.currency =
            true := by
          rw [hccur]
          exact List.elem_iff.mpr hcmem
        rw [hself, hcont]
        rfl
      · have hccur : ch.currency = c := invoicablePred_currency hpred
        show some (s.nextId + List.indexOf ch.currency
          (ms.map (fun m => m.currency))) = _
        rw [hccur]
      · show ch.currency = c
        exact invoicablePred_currency hpred
  · intro invId hinv
    simp only [List.mem_map, List.mem_range] at hinv
    obtain ⟨i, hilt, hiid⟩ := hinv
    refine ⟨⟨s.nextId + i, accountId, dueDate, .PENDING, s.nextId + i⟩, ?_,
      hiid, rfl, rfl, rfl⟩
    apply List.mem_append_right
    simp only [List.mem_map, List.mem_range]
    exact ⟨i, hilt, rfl⟩

/-- Witness for the amended C1 at the concrete credit state: an invoice is
created for CHF and the positive uninvoiced CHF sum is 10. -/
theorem claim_C1_invoice_iff_positive_total_witness :
    chargeRefsBounded cxCreditState = true ∧
    (((∃ invId ∈ (create_invoices cxCreditState 0 5).2,
        ∃ ch2 ∈ (create_invoices cxCreditState 0 5).1.charges,
          ch2.invoiceId = some invId ∧ ch2.currency = "CHF") ↔
      0 < positiveUninvoicedSum cxCreditState 0 "CHF") ∧
    (∀ invId ∈ (create_invoices cxCreditState 0 5).2,
      ∃ inv ∈ (create_invoices cxCreditState 0 5).1.invoices,
        inv.id = invId ∧ inv.accountId = 0 ∧
          inv.dueDate = 5 ∧ inv.status = InvoiceStatus.PENDING)) :=
  ⟨by decide, claim_C1_invoice_iff_positive_total cxCreditState 0 5 "CHF"
    (by decide)⟩

/-- C2 as stated in the specification is false: with one uninvoiced charge
of 10 CHF and one uninvoiced credit of -30 CHF, `create_invoices` creates
an invoice (id 2) for CHF, but the credit (charge id 1, non-deleted,
uninvoiced, currency CHF) is NOT reassigned to it: its `invoice_id` stays
null. -/
theorem claim_C2_counterexample :
    (create_invoices cxCreditState 0 5).2 = [2] ∧
    (∃ ch2 ∈ (create_invoices cxCreditState 0 5).1.charges,
      ch2.invoiceId = some 2 ∧ ch2.currency = "CHF") ∧
    (∃ cr ∈ (create_invoices cxCreditState 0 5).1.charges,
      cr.id = 1 ∧ cr.amount = -30 ∧ cr.currency = "CHF" ∧
        cr.deleted = false ∧ cr.invoiceId = none) := by
  refine ⟨by decide, ?_, ?_⟩
  · refine ⟨⟨0, 0, some 2, 10, "CHF", "ACHARGE", 0, false⟩, ?_, rfl, rfl⟩
    decide
  · refine ⟨⟨1, 0, none, -30, "CHF", "ACREDIT", 1, false⟩, ?_, rfl, rfl, rfl,
      rfl, rfl⟩
    decide

/-- C2 (amended): whenever `create_invoices` creates an invoice holding
charges of a currency, every non-deleted, uninvoiced, strictly positive
charge of the account in that currency is reassigned to that same invoice;
negative credits are never reassigned (every charge that is not a positive
uninvoiced charge of the account is left exactly as it was). -/
theorem claim_C2_positive_charges_reassigned (s : BillingState)
    (accountId dueDate : Nat) (hWF : chargeRefsBounded s = true) :
    (∀ invId ∈ (create_invoices s accountId dueDate).2,
      ∀ ch ∈ s.charges, invoicablePred accountId ch.currency ch = true →
        (∃ ch2 ∈ (create_invoices s accountId dueDate).1.charges,
          ch2.invoiceId = some invId ∧ ch2.currency = ch.currency) →
        { ch with invoiceId := some invId } ∈
          (create_invoices s accountId dueDate).1.charges) ∧
    (∀ ch ∈ s.charges, invoicablePred accountId ch.currency ch = false →
      ch ∈ (create_invoices s accountId dueDate).1.charges) := by
  have hcre : create_invoices s accountId dueDate =
      createLoop accountId dueDate s
        (total_amount (chargeMonies (ChargeQuerySet.charges
          (ChargeQuerySet.uninvoiced (chargeObjects s) accountId)))).monies :=
    rfl
  set dm := chargeMonies (ChargeQuerySet.charges
    (ChargeQuerySet.uninvoiced (chargeObjects s) accountId)) with hdm
  set ms := (total_amount dm).monies with hms
  have hnd : (ms.map (fun m => m.currency)).Nodup := total_amount_keysNodup dm
  have hpos : ∀ m ∈ ms, 0 < m.amount :=
    total_amount_entry_pos (dueMonies_pos s accountId)
  rw [hcre, createLoop_eq accountId dueDate ms s hnd hpos]
  simp only
  have hbound : ∀ ch ∈ s.charges, ∀ i, ch.invoiceId = some i →
      i < s.nextId := by
    intro ch hch i hchi
    have := List.all_eq_true.mp hWF ch hch
    rw [hchi] at this
    simpa using this
  constructor
  · intro invId hinv ch hch hpred hex
    simp only [List.mem_map, List.mem_range] at hinv
    obtain ⟨i, hilt, hiid⟩ := hinv
    obtain ⟨ch2, hch2, hassign, hcurr⟩ := hex
    simp only [List.mem_map] at hch2
    obtain ⟨ch0, hch0, hFch0⟩ := hch2
    by_cases hcond : (invoicablePred accountId ch0.currency ch0 &&
        (ms.map (fun m => m.currency)).contains ch0.currency) = true
    · rw [if_pos hcond] at hFch0
      have hidx : some (s.nextId +
          List.indexOf ch0.currency (ms.map (fun m => m.currency))) =
            some invId := by
        rw [← hassign, ← hFch0]
      have hc0c : ch0.currency = ch.currency := by
        rw [← hcurr, ← hFch0]
      simp only [List.mem_map]
      refine ⟨ch, hch, ?_⟩
      have hcont : (ms.map (fun m => m.currency)).contains ch.currency =
          true := by
        rw [← hc0c]
        exact ((Bool.and_eq_true _ _).mp hcond).2
      rw [if_pos (by rw [hpred, hcont]; rfl)]
      have : s.nextId + List.indexOf ch.currency
          (ms.map (fun m => m.currency)) = invId := by
        rw [← hc0c]
        exact Option.some.inj hidx
      rw [this]
    · rw [if_neg hcond] at hFch0
      rw [← hFch0] at hassign
      have := hbound ch0 hch0 invId hassign
      omega
  · intro ch hch hpred
    simp only [List.mem_map]
    refine ⟨ch, hch, ?_⟩
    rw [if_neg (by rw [hpred]; simp)]

/-- Witness for the amended C2 at the concrete credit state. -/
theorem claim_C2_positive_charges_reassigned_witness :
    chargeRefsBounded cxCreditState = true ∧
    ((∀ invId ∈ (create_invoices cxCreditState 0 5).2,
      ∀ ch ∈ cxCreditState.charges,
        invoicablePred 0 ch.currency ch = true →
        (∃ ch2 ∈ (create_invoices cxCreditState 0 5).1.charges,
          ch2.invoiceId = some invId ∧ ch2.currency = ch.currency) →
        { ch with invoiceId := some invId } ∈
          (create_invoices cxCreditState 0 5).1.charges) ∧
    (∀ ch ∈ cxCreditState.charges,
      invoicablePred 0 ch.currency ch = false →
      ch ∈ (create_invoices cxCreditState 0 5).1.charges)) :=
  ⟨by decide, claim_C2_positive_charges_reassigned cxCreditState 0 5
    (by decide)⟩

lemma fundsLoop_eq (invId : Nat) :
    ∀ (funds : List Fund) (s : BillingState) (d : Int), 0 < d →
      fundsLoop invId s d funds =
        ((funds.take (stopCount d (funds.map Fund.contribution))).foldl
            (fun st f => saveFund st invId f) s,
          d - ((funds.map Fund.contribution).take
            (stopCount d (funds.map Fund.contribution))).sum) := by
  intro funds
  induction funds with
  | nil =>
    intro s d _
    simp [fundsLoop, stopCount]
  | cons f rest ih =>
    intro s d hd
    simp only [fundsLoop, List.map_cons, stopCount]
    by_cases hstop : d - f.contribution ≤ 0
    · simp only [if_pos hstop]
      simp
    · simp only [if_neg hstop]
      have hd2 : 0 < d - f.contribution := by omega
      rw [ih (saveFund s invId f) (d - f.contribution) hd2]
      simp only [List.take_succ_cons, List.foldl_cons, List.sum_cons]
      rw [Prod.mk.injEq]
      exact ⟨rfl, by ring⟩

lemma foldl_saveFund_eq :
    ∀ (fs : List Fund) (s : BillingState) (invId : Nat),
      fs.foldl (fun st f => saveFund st invId f) s =
        { s with
          charges := s.charges.map (fun ch =>
            if (creditIds fs).contains ch.id then
              { ch with invoiceId := some invId }
            else ch),
          transactions := s.transactions.map (fun tr =>
            if (paymentIds fs).contains tr.id then
              { tr with invoiceId := some invId }
            else tr) } := by
  intro fs
  induction fs with
  | nil =>
    intro s invId
    simp only [List.foldl_nil, creditIds, paymentIds, List.filterMap_nil]
    have hch : ∀ ch ∈ s.charges,
        (if (List.contains ([] : List Nat) ch.id) then
          { ch with invoiceId := some invId } else ch) = ch := by
      intro ch _
      rw [if_neg]
      simp [List.contains]
    have htr : ∀ tr ∈ s.transactions,
        (if (List.contains ([] : List Nat) tr.id) then
          { tr with invoiceId := some invId } else tr) = tr := by
      intro tr _
      rw [if_neg]
      simp [List.contains]
    rw [List.map_congr_left hch, List.map_congr_left htr]
    simp
  | cons f rest ih =>
    intro s invId
    rw [List.foldl_cons, ih]
    cases f with
    | credit c =>
      simp only [saveFund, creditIds, paymentIds, List.filterMap_cons]
      simp only [List.map_map]
      congr 1
      apply List.map_congr_left
      intro ch _
      simp only [Function.comp_apply]
      by_cases hid : ch.id = c.id
      · simp [List.contains_cons, hid]
      · simp [List.contains_cons, hid]
    | payment t =>
      simp only [saveFund, creditIds, paymentIds, List.filterMap_cons]
      simp only [List.map_map]
      congr 1
      apply List.map_congr_left
      intro tr _
      simp only [Function.comp_apply]
      by_cases hid : tr.id = t.id
      · simp [List.contains_cons, hid]
      · simp [List.contains_cons, hid]

lemma mem_orderBy {α : Type} (key : α → Nat) (l : List α) (a : α) :
    a ∈ orderBy key l ↔ a ∈ l := by
  unfold orderBy
  exact (List.perm_insertionSort _ _).mem_iff

lemma sorted_orderBy {α : Type} (key : α → Nat) (l : List α) :
    List.Sorted (fun a b => key a ≤ key b) (orderBy key l) := by
  haveI : IsTotal α (fun a b => key a ≤ key b) :=
    ⟨fun a b => Nat.le_total (key a) (key b)⟩
  haveI : IsTrans α (fun a b => key a ≤ key b) :=
    ⟨fun a b c hab hbc => Nat.le_trans hab hbc⟩
  exact List.sorted_insertionSort _ l

lemma nodup_orderBy {α : Type} (key : α → Nat) (l : List α)
    (idf : α → Nat) (h : (l.map idf).Nodup) :
    ((orderBy key l).map idf).Nodup := by
  unfold orderBy
  exact (((List.perm_insertionSort
    (fun a b => key a ≤ key b) l).map idf).nodup_iff).mpr h

/-- Provenance of the credits half of the fund list. -/
lemma creditsPart_mem (s : BillingState) (accountId : Nat) (cur : String)
    (c : Charge)
    (hc : c ∈ orderBy (fun c => c.created)
      (ChargeQuerySet.in_currency
        (ChargeQuerySet.uninvoiced
          (ChargeQuerySet.credits (chargeObjects s)) accountId) cur)) :
    c ∈ s.charges ∧ c.amount < 0 ∧ c.invoiceId = none ∧
      c.accountId = accountId ∧ c.currency = cur ∧ c.deleted = false := by
  rw [mem_orderBy] at hc
  unfold ChargeQuerySet.in_currency ChargeQuerySet.uninvoiced
    ChargeQuerySet.credits chargeObjects at hc
  simp only [List.mem_filter, Bool.and_eq_true, Option.isNone_iff_eq_none,
    beq_iff_eq, decide_eq_true_eq, Bool.not_eq_eq_eq_not, Bool.not_true] at hc
  obtain ⟨⟨⟨⟨hmem, hdel⟩, hneg⟩, hnone, hacct⟩, hcur⟩ := hc
  exact ⟨hmem, hneg, hnone, hacct, hcur, hdel⟩

/-- Provenance of the payments half of the fund list. -/
lemma paymentsPart_mem (s : BillingState) (accountId : Nat) (cur : String)
    (t : Transaction)
    (ht : t ∈ orderBy (fun t => t.created)
      (TransactionQuerySet.in_currency
        (TransactionQuerySet.uninvoiced
          (TransactionQuerySet.payments (transactionSuccessful s)) accountId)
        cur)) :
    t ∈ s.transactions ∧ 0 < t.amount ∧ t.invoiceId = none ∧
      t.accountId = accountId ∧ t.currency = cur ∧ t.success = true := by
  rw [mem_orderBy] at ht
  unfold TransactionQuerySet.in_currency TransactionQuerySet.uninvoiced
    TransactionQuerySet.payments transactionSuccessful at ht
  simp only [List.mem_filter, Bool.and_eq_true, Option.isNone_iff_eq_none,
    beq_iff_eq, decide_eq_true_eq] at ht
  obtain ⟨⟨⟨⟨hmem, hsucc⟩, hpos⟩, hnone, hacct⟩, hcur⟩ := ht
  exact ⟨hmem, hpos, hnone, hacct, hcur, hsucc⟩

lemma mem_fundsFor {s : BillingState} {accountId : Nat} {cur : String}
    {f : Fund} (hf : f ∈ fundsFor s accountId cur) :
    (∃ c, f = Fund.credit c ∧ c ∈ s.charges ∧ c.amount < 0 ∧
      c.invoiceId = none ∧ c.accountId = accountId ∧ c.currency = cur ∧
        c.deleted = false) ∨
    (∃ t, f = Fund.payment t ∧ t ∈ s.transactions ∧ 0 < t.amount ∧
      t.invoiceId = none ∧ t.accountId = accountId ∧ t.currency = cur ∧
        t.success = true) := by
  unfold fundsFor at hf
  rcases List.mem_append.mp hf with h | h
  · left
    obtain ⟨c, hc, hfc⟩ := List.mem_map.mp h
    obtain ⟨h1, h2, h3, h4, h5, h6⟩ := creditsPart_mem s accountId cur c hc
    exact ⟨c, hfc.symm, h1, h2, h3, h4, h5, h6⟩
  · right
    obtain ⟨t, ht, hft⟩ := List.mem_map.mp h
    obtain ⟨h1, h2, h3, h4, h5, h6⟩ := paymentsPart_mem s accountId cur t ht
    exact ⟨t, hft.symm, h1, h2, h3, h4, h5, h6⟩

lemma fundsFor_keys_nodup (s : BillingState) (accountId : Nat) (cur : String)
    (hch : (s.charges.map (fun c => c.id)).Nodup)
    (htx : (s.transactions.map (fun t => t.id)).Nodup) :
    ((fundsFor s accountId cur).map fundKey).Nodup := by
  unfold fundsFor
  rw [List.map_append]
  have hcredit : ((orderBy (fun c => c.created)
      (ChargeQuerySet.in_currency
        (ChargeQuerySet.uninvoiced
          (ChargeQuerySet.credits (chargeObjects s)) accountId)
        cur)).map (fun c => c.id)).Nodup := by
    apply nodup_orderBy
    unfold ChargeQuerySet.in_currency ChargeQuerySet.uninvoiced
      ChargeQuerySet.credits chargeObjects
    exact hch.sublist (((((List.filter_sublist _).map _).trans
      ((List.filter_sublist _).map _)).trans
      ((List.filter_sublist _).map _)).trans
      ((List.filter_sublist _).map _))
  have hpay : ((orderBy (fun t => t.created)
      (TransactionQuerySet.in_currency
        (TransactionQuerySet.uninvoiced
          (TransactionQuerySet.payments (transactionSuccessful s)) accountId)
        cur)).map (fun t => t.id)).Nodup := by
    apply nodup_orderBy
    unfold TransactionQuerySet.in_currency TransactionQuerySet.uninvoiced
      TransactionQuerySet.payments transactionSuccessful
    exact htx.sublist (((((List.filter_sublist _).map _).trans
      ((List.filter_sublist _).map _)).trans
      ((List.filter_sublist _).map _)).trans
      ((List.filter_sublist _).map _))
  apply List.Nodup.append
  · rw [List.map_map]
    have heq : (fundKey ∘ Fund.credit) = (fun c : Charge => ((false : Bool), c.id)) := by
      funext c
      rfl
    rw [heq]
    have : (fun c : Charge => ((false : Bool), c.id)) =
        (Prod.mk (false : Bool)) ∘ (fun c : Charge => c.id) := rfl
    rw [this, ← List.map_map]
    exact hcredit.map (fun a b h => by injection h)
  · rw [List.map_map]
    have heq : (fundKey ∘ Fund.payment) =
        (fun t : Transaction => ((true : Bool), t.id)) := by
      funext t
      rfl
    rw [heq]
    have : (fun t : Transaction => ((true : Bool), t.id)) =
        (Prod.mk (true : Bool)) ∘ (fun t : Transaction => t.id) := rfl
    rw [this, ← List.map_map]
    exact hpay.map (fun a b h => by injection h)
  · intro x hx hy
    rw [List.map_map] at hx hy
    obtain ⟨c, _, hxc⟩ := List.mem_map.mp hx
    obtain ⟨t, _, hyt⟩ := List.mem_map.mp hy
    rw [← hxc] at hyt
    have hfe := congrArg Prod.fst hyt
    simp [fundKey] at hfe

lemma stopCount_le_length (d : Int) (cs : List Int) :
    stopCount d cs ≤ cs.length := by
  induction cs generalizing d with
  | nil => simp [stopCount]
  | cons c rest ih =>
    simp only [stopCount, List.length_cons]
    split
    · omega
    · have := ih (d - c)
      omega

lemma stopCount_partial_pos (d : Int) (cs : List Int) :
    ∀ j : Nat, j + 1 < stopCount d cs →
      0 < d - (cs.take (j + 1)).sum := by
  induction cs generalizing d with
  | nil => intro j h; simp [stopCount] at h
  | cons c rest ih =>
    intro j h
    simp only [stopCount] at h
    by_cases hstop : d - c ≤ 0
    · rw [if_pos hstop] at h; omega
    · rw [if_neg hstop] at h
      cases j with
      | zero => simpa using hstop
      | succ j0 =>
        have := ih (d - c) j0 (by omega)
        simp only [List.take_succ_cons, List.sum_cons]
        omega

lemma stopCount_final (d : Int) (cs : List Int) :
    stopCount d cs = cs.length ∨
      d - (cs.take (stopCount d cs)).sum ≤ 0 := by
  induction cs generalizing d with
  | nil => left; rfl
  | cons c rest ih =>
    simp only [stopCount]
    by_cases hstop : d - c ≤ 0
    · rw [if_pos hstop]
      right
      simpa using hstop
    · rw [if_neg hstop]
      rcases ih (d - c) with h | h
      · left; simp [h]
      · right
        simp only [List.take_succ_cons, List.sum_cons]
        omega

lemma mem_creditIds {fs : List Fund} {c : Charge}
    (h : Fund.credit c ∈ fs) : c.id ∈ creditIds fs := by
  unfold creditIds
  exact List.mem_filterMap.mpr ⟨Fund.credit c, h, rfl⟩

lemma mem_paymentIds {fs : List Fund} {t : Transaction}
    (h : Fund.payment t ∈ fs) : t.id ∈ paymentIds fs := by
  unfold paymentIds
  exact List.mem_filterMap.mpr ⟨Fund.payment t, h, rfl⟩

lemma creditIds_mem_key {fs : List Fund} {i : Nat} (h : i ∈ creditIds fs) :
    ∃ g ∈ fs, fundKey g = (false, i) := by
  unfold creditIds at h
  obtain ⟨g, hg, hgi⟩ := List.mem_filterMap.mp h
  cases g with
  | credit c =>
    refine ⟨Fund.credit c, hg, ?_⟩
    simp only [fundKey]
    simpa using hgi
  | payment t => simp at hgi

lemma paymentIds_mem_key {fs : List Fund} {i : Nat} (h : i ∈ paymentIds fs) :
    ∃ g ∈ fs, fundKey g = (true, i) := by
  unfold paymentIds at h
  obtain ⟨g, hg, hgi⟩ := List.mem_filterMap.mp h
  cases g with
  | credit c => simp at hgi
  | payment t =>
    refine ⟨Fund.payment t, hg, ?_⟩
    simp only [fundKey]
    simpa using hgi

lemma fundAssignedIn_markInvoicePaid {s : BillingState} {invId j : Nat}
    {f : Fund} (h : fundAssignedIn s invId f) :
    fundAssignedIn (markInvoicePaid s j) invId f := by
  cases f <;> exact h

lemma fundUnassignedIn_markInvoicePaid {s : BillingState} {j : Nat}
    {f : Fund} (h : fundUnassignedIn s f) :
    fundUnassignedIn (markInvoicePaid s j) f := by
  cases f <;> exact h

lemma fundAssignedIn_addCarryForward {s : BillingState}
    {invId a j : Nat} {o : Int} {cur : String} {f : Fund}
    (h : fundAssignedIn s invId f) :
    fundAssignedIn (addCarryForward s a j o cur) invId f := by
  cases f with
  | credit c =>
    obtain ⟨ch, hch, h1, h2⟩ := h
    exact ⟨ch, List.mem_append_left _ hch, h1, h2⟩
  | payment t => exact h

lemma fundUnassignedIn_addCarryForward {s : BillingState}
    {a j : Nat} {o : Int} {cur : String} {f : Fund}
    (h : fundUnassignedIn s f) :
    fundUnassignedIn (addCarryForward s a j o cur) f := by
  cases f with
  | credit c =>
    obtain ⟨ch, hch, h1, h2⟩ := h
    exact ⟨ch, List.mem_append_left _ hch, h1, h2⟩
  | payment t => exact h

lemma assign_funds_eq (s : BillingState) (invoiceId : Nat) (inv : Invoice)
    (d : Int) (cur : String)
    (hfind : s.invoices.find? (fun i => i.id == invoiceId) = some inv)
    (hstatus : inv.status = InvoiceStatus.PENDING)
    (hdue : (invoiceDue s invoiceId).monies = [⟨d, cur⟩])
    (hdpos : 0 < d) :
    assign_funds_to_invoice s invoiceId =
      some
        ((fun s2 d2 =>
          ((fun s3 =>
            ((if d2 < 0 then
                addCarryForward s3 inv.accountId invoiceId (-d2) cur
              else s3),
              decide (d2 ≤ 0)))
            (if d2 ≤ 0 then markInvoicePaid s2 invoiceId else s2)))
          (((fundsFor s inv.accountId cur).take
              (stopCount d ((fundsFor s inv.accountId cur).map
                Fund.contribution))).foldl
            (fun st f => saveFund st invoiceId f) s)
          (d - (((fundsFor s inv.accountId cur).map Fund.contribution).take
            (stopCount d ((fundsFor s inv.accountId cur).map
              Fund.contribution))).sum)) := by
  unfold assign_funds_to_invoice
  rw [hfind]
  simp only [hdue]
  rw [if_neg (by simp [hstatus])]
  simp only [if_pos hdpos]
  rw [fundsLoop_eq invoiceId (fundsFor s inv.accountId cur) s d hdpos]

/-- C3: on a PENDING single-currency invoice with due amount `d > 0`, the
fund matcher considers all unassigned credits (sorted oldest first) before
all unassigned successful payments (sorted oldest first), regardless of
relative creation time across groups; it assigns each fund of the list
wholly, stopping with the first fund that brings the remaining due amount
to zero or below (`stopCount` picks that minimal prefix); every fund after
the stopping point keeps a null invoice id. -/
theorem claim_C3_fund_matching (s : BillingState) (invoiceId : Nat)
    (inv : Invoice) (d : Int) (cur : String)
    (hfind : s.invoices.find? (fun i => i.id == invoiceId) = some inv)
    (hstatus : inv.status = InvoiceStatus.PENDING)
    (hdue : (invoiceDue s invoiceId).monies = [⟨d, cur⟩])
    (hdpos : 0 < d)
    (hch : (s.charges.map (fun c => c.id)).Nodup)
    (htx : (s.transactions.map (fun t => t.id)).Nodup) :
    ∃ s4 paid, assign_funds_to_invoice s invoiceId = some (s4, paid) ∧
      (∃ cs ts,
        fundsFor s inv.accountId cur =
          cs.map Fund.credit ++ ts.map Fund.payment ∧
        List.Sorted (fun a b => a.created ≤ b.created) cs ∧
        List.Sorted (fun a b => a.created ≤ b.created) ts ∧
        (∀ c ∈ cs, c.amount < 0 ∧ c.invoiceId = none ∧
          c.accountId = inv.accountId ∧ c.currency = cur ∧
            c.deleted = false) ∧
        (∀ t ∈ ts, 0 < t.amount ∧ t.invoiceId = none ∧
          t.accountId = inv.accountId ∧ t.currency = cur ∧
            t.success = true)) ∧
      (∀ f ∈ (fundsFor s inv.accountId cur).take
          (stopCount d ((fundsFor s inv.accountId cur).map
            Fund.contribution)),
        fundAssignedIn s4 invoiceId f) ∧
      (∀ f ∈ (fundsFor s inv.accountId cur).drop
          (stopCount d ((fundsFor s inv.accountId cur).map
            Fund.contribution)),
        fundUnassignedIn s4 f) ∧
      (∀ j : Nat, j + 1 <
          stopCount d ((fundsFor s inv.accountId cur).map
            Fund.contribution) →
        0 < d - (((fundsFor s inv.accountId cur).map
          Fund.contribution).take (j + 1)).sum) ∧
      (stopCount d ((fundsFor s inv.accountId cur).map Fund.contribution) =
          (fundsFor s inv.accountId cur).length ∨
        d - (((fundsFor s inv.accountId cur).map Fund.contribution).take
          (stopCount d ((fundsFor s inv.accountId cur).map
            Fund.contribution))).sum ≤ 0) := by
  have heq := assign_funds_eq s invoiceId inv d cur hfind hstatus hdue hdpos
  simp only at heq
  set funds := fundsFor s inv.accountId cur with hfundsdef
  set k := stopCount d (funds.map Fund.contribution) with hkdef
  set s2v := ((funds.take k).foldl (fun st f => saveFund st invoiceId f) s)
    with hs2def
  set d2v := d - ((funds.map Fund.contribution).take k).sum with hd2def
  set s3v := (if d2v ≤ 0 then markInvoicePaid s2v invoiceId else s2v)
    with hs3def
  set s4v := (if d2v < 0 then
      addCarryForward s3v inv.accountId invoiceId (-d2v) cur
    else s3v) with hs4def
  refine ⟨s4v, decide (d2v ≤ 0), heq, ?_, ?_, ?_, ?_, ?_⟩
  · refine ⟨orderBy (fun c => c.created)
      (ChargeQuerySet.in_currency
        (ChargeQuerySet.uninvoiced
          (ChargeQuerySet.credits (chargeObjects s)) inv.accountId) cur),
      orderBy (fun t => t.created)
      (TransactionQuerySet.in_currency
        (TransactionQuerySet.uninvoiced
          (TransactionQuerySet.payments (transactionSuccessful s))
            inv.accountId) cur), rfl,
      sorted_orderBy _ _, sorted_orderBy _ _, ?_, ?_⟩
    · intro c hc
      obtain ⟨_, h2, h3, h4, h5, h6⟩ :=
        creditsPart_mem s inv.accountId cur c hc
      exact ⟨h2, h3, h4, h5, h6⟩
    · intro t ht
      obtain ⟨_, h2, h3, h4, h5, h6⟩ :=
        paymentsPart_mem s inv.accountId cur t ht
      exact ⟨h2, h3, h4, h5, h6⟩
  · -- funds of the consumed prefix are assigned
    intro f hf
    have hassign2 : fundAssignedIn s2v invoiceId f := by
      rw [hs2def, foldl_saveFund_eq]
      have hffunds : f ∈ funds := List.take_subset k funds hf
      rcases mem_fundsFor (hfundsdef ▸ hffunds) with
          ⟨c, rfl, hmem, _, _, _, _, _⟩ | ⟨t, rfl, hmem, _, _, _, _, _⟩
      · refine ⟨{ c with invoiceId := some invoiceId }, ?_, rfl, rfl⟩
        apply List.mem_map.mpr
        refine ⟨c, hmem, ?_⟩
        rw [if_pos]
        have : c.id ∈ creditIds (funds.take k) := mem_creditIds hf
        exact List.elem_iff.mpr this
      · refine ⟨{ t with invoiceId := some invoiceId }, ?_, rfl, rfl⟩
        apply List.mem_map.mpr
        refine ⟨t, hmem, ?_⟩
        rw [if_pos]
        have : t.id ∈ paymentIds (funds.take k) := mem_paymentIds hf
        exact List.elem_iff.mpr this
    have hassign3 : fundAssignedIn s3v invoiceId f := by
      rw [hs3def]
      split
      · exact fundAssignedIn_markInvoicePaid hassign2
      · exact hassign2
    rw [hs4def]
    split
    · exact fundAssignedIn_addCarryForward hassign3
    · exact hassign3
  · -- funds after the stopping point stay unassigned
    intro f hf
    have hkeysnd : (funds.map fundKey).Nodup :=
      fundsFor_keys_nodup s inv.accountId cur hch htx
    have hdisj : ∀ g ∈ funds.take k, fundKey g ≠ fundKey f := by
      have hsplit : funds = funds.take k ++ funds.drop k :=
        (List.take_append_drop k funds).symm
      rw [hsplit, List.map_append] at hkeysnd
      have hdk := (List.nodup_append.mp hkeysnd).2.2
      intro g hg hgf
      exact hdk (List.mem_map.mpr ⟨g, hg, rfl⟩)
        (by rw [hgf]; exact List.mem_map.mpr ⟨f, hf, rfl⟩)
    have hun2 : fundUnassignedIn s2v f := by
      rw [hs2def, foldl_saveFund_eq]
      have hffunds : f ∈ funds := List.drop_subset k funds hf
      rcases mem_fundsFor (hfundsdef ▸ hffunds) with
          ⟨c, rfl, hmem, _, hnone, _, _, _⟩ | ⟨t, rfl, hmem, _, hnone, _, _, _⟩
      · refine ⟨c, ?_, rfl, hnone⟩
        apply List.mem_map.mpr
        refine ⟨c, hmem, ?_⟩
        rw [if_neg]
        intro hcont
        obtain ⟨g, hg, hgkey⟩ :=
          creditIds_mem_key (List.elem_iff.mp hcont)
        exact hdisj g hg (by rw [hgkey]; rfl)
      · refine ⟨t, ?_, rfl, hnone⟩
        apply List.mem_map.mpr
        refine ⟨t, hmem, ?_⟩
        rw [if_neg]
        intro hcont
        obtain ⟨g, hg, hgkey⟩ :=
          paymentIds_mem_key (List.elem_iff.mp hcont)
        exact hdisj g hg (by rw [hgkey]; rfl)
    have hun3 : fundUnassignedIn s3v f := by
      rw [hs3def]
      split
      · exact fundUnassignedIn_markInvoicePaid hun2
      · exact hun2
    rw [hs4def]
    split
    · exact fundUnassignedIn_addCarryForward hun3
    · exact hun3
  · exact stopCount_partial_pos d (funds.map Fund.contribution)
  · rcases stopCount_final d (funds.map Fund.contribution) with h | h
    · left
      rw [hkdef, h, List.length_map]
    · right
      exact h

/-- Witness for C3 at the credits-before-payments state: the credit is
assigned, the older payment stays unassigned. -/
theorem claim_C3_fund_matching_witness :
    ((cxFundState.invoices.find? (fun i => i.id == 1) =
        some ⟨1, 0, 10, InvoiceStatus.PENDING, 1⟩) ∧
      (invoiceDue cxFundState 1).monies = [⟨10, "CHF"⟩] ∧
      (0 : Int) < 10 ∧
      (cxFundState.charges.map (fun c => c.id)).Nodup ∧
      (cxFundState.transactions.map (fun t => t.id)).Nodup) ∧
    (∃ s4 paid, assign_funds_to_invoice cxFundState 1 = some (s4, paid) ∧
      (∃ cs ts,
        fundsFor cxFundState 0 "CHF" =
          cs.map Fund.credit ++ ts.map Fund.payment ∧
        List.Sorted (fun (a : Charge) b => a.created ≤ b.created) cs ∧
        List.Sorted (fun (a : Transaction) b => a.created ≤ b.created) ts ∧
        (∀ c ∈ cs, c.amount < 0 ∧ c.invoiceId = none ∧
          c.accountId = 0 ∧ c.currency = "CHF" ∧ c.deleted = false) ∧
        (∀ t ∈ ts, 0 < t.amount ∧ t.invoiceId = none ∧
          t.accountId = 0 ∧ t.currency = "CHF" ∧ t.success = true)) ∧
      (∀ f ∈ (fundsFor cxFundState 0 "CHF").take
          (stopCount 10 ((fundsFor cxFundState 0 "CHF").map
            Fund.contribution)),
        fundAssignedIn s4 1 f) ∧
      (∀ f ∈ (fundsFor cxFundState 0 "CHF").drop
          (stopCount 10 ((fundsFor cxFundState 0 "CHF").map
            Fund.contribution)),
        fundUnassignedIn s4 f) ∧
      (∀ j : Nat, j + 1 <
          stopCount 10 ((fundsFor cxFundState 0 "CHF").map
            Fund.contribution) →
        0 < 10 - (((fundsFor cxFundState 0 "CHF").map
          Fund.contribution).take (j + 1)).sum) ∧
      (stopCount 10 ((fundsFor cxFundState 0 "CHF").map Fund.contribution) =
          (fundsFor cxFundState 0 "CHF").length ∨
        10 - (((fundsFor cxFundState 0 "CHF").map Fund.contribution).take
          (stopCount 10 ((fundsFor cxFundState 0 "CHF").map
            Fund.contribution))).sum ≤ 0)) :=
  ⟨⟨by decide, by decide, by decide, by decide, by decide⟩,
    claim_C3_fund_matching cxFundState 1 ⟨1, 0, 10, .PENDING, 1⟩ 10 "CHF"
      (by decide) rfl (by decide) (by decide) (by decide) (by decide)⟩

lemma total_get_of_single {t : Total} {m : Money}
    (h : t.monies = [m]) : t.get m.currency = m.amount := by
  unfold Total.get
  rw [h]
  simp [List.find?]

lemma mem_currencies_add_right {a b : Total} {c : String}
    (h : c ∈ b.currencies) : c ∈ (a.add b).currencies := by
  rw [Total.currencies_add]
  by_cases ha : c ∈ a.currencies
  · exact List.mem_append_left _ ha
  · apply List.mem_append_right
    obtain ⟨q, hq, hqc⟩ := List.mem_map.mp h
    apply List.mem_map.mpr
    refine ⟨q, ?_, hqc⟩
    apply List.mem_filter.mpr
    refine ⟨hq, ?_⟩
    simp only [List.all_eq_true, Bool.not_eq_eq_eq_not, Bool.not_true,
      beq_eq_false_iff_ne, ne_eq]
    intro x hx hxq
    exact ha (List.mem_map.mpr ⟨x, hx, hxq.trans hqc⟩)

lemma currencies_neg (b : Total) : (b.neg).currencies = b.currencies := by
  unfold Total.currencies Total.neg
  rw [List.map_map]
  rfl

lemma mem_entry_currency_sub {a b : Total} {m : Money}
    (h : m ∈ (a.sub b).monies) :
    m.currency ∈ a.currencies ∨ m.currency ∈ b.currencies := by
  unfold Total.sub Total.add at h
  rcases List.mem_append.mp h with h1 | h1
  · left
    obtain ⟨q, hq, hqm⟩ := List.mem_map.mp h1
    have hcq : m.currency = q.currency := by
      rw [← hqm]
      cases (b.neg).monies.find? (fun x => x.currency == q.currency) <;> rfl
    rw [hcq]
    exact List.mem_map.mpr ⟨q, hq, rfl⟩
  · right
    have hmn : m ∈ (b.neg).monies := List.mem_of_mem_filter h1
    have : m.currency ∈ (b.neg).currencies := List.mem_map.mpr ⟨m, hmn, rfl⟩
    rwa [currencies_neg] at this

lemma invoiceDue_get (s : BillingState) (invoiceId : Nat) (cur : String) :
    (invoiceDue s invoiceId).get cur =
      linkedChargeAmount s.charges invoiceId cur -
        linkedTxnAmount s.transactions invoiceId cur := by
  unfold invoiceDue
  rw [Total.get_sub, total_amount_get, total_amount_get]
  unfold chargeMonies transactionMonies chargeObjects transactionSuccessful
    linkedChargeAmount linkedTxnAmount
  rw [List.filter_map, List.map_map, List.filter_map, List.map_map]
  congr 1
  · rw [List.filter_filter, List.filter_filter]
    have hpred : ∀ c : Charge,
        ((((fun m : Money => m.currency == cur) ∘
            (fun c : Charge => (⟨c.amount, c.currency⟩ : Money))) c &&
          (c.invoiceId == some invoiceId) && !c.deleted) : Bool) =
          (!c.deleted && c.invoiceId == some invoiceId &&
            c.currency == cur) := by
      intro c
      simp only [Function.comp_apply]
      cases c.deleted <;> cases hinv : (c.invoiceId == some invoiceId) <;>
        cases hcur : (c.currency == cur) <;> simp
    rw [List.filter_congr (fun c _ => hpred c)]
    rfl
  · rw [List.filter_filter, List.filter_filter]
    have hpred : ∀ t : Transaction,
        ((((fun m : Money => m.currency == cur) ∘
            (fun t : Transaction => (⟨t.amount, t.currency⟩ : Money))) t &&
          (t.invoiceId == some invoiceId) && t.success) : Bool) =
          (t.success && t.invoiceId == some invoiceId &&
            t.currency == cur) := by
      intro t
      simp only [Function.comp_apply]
      cases t.success <;> cases hinv : (t.invoiceId == some invoiceId) <;>
        cases hcur : (t.currency == cur) <;> simp
    rw [List.filter_congr (fun t _ => hpred t)]
    rfl

lemma linkedChargeAmount_flip_one (cs : List Charge) (c : Charge)
    (invId : Nat) (cur : String)
    (hnd : (cs.map (fun x => x.id)).Nodup) (hc : c ∈ cs)
    (hnone : c.invoiceId = none) (hdel : c.deleted = false)
    (hcur : c.currency = cur) :
    linkedChargeAmount (cs.map (fun ch =>
        if ch.id == c.id then { ch with invoiceId := some invId } else ch))
      invId cur = linkedChargeAmount cs invId cur + c.amount := by
  induction cs with
  | nil => cases hc
  | cons h t ih =>
    simp only [List.map_cons, List.nodup_cons] at hnd
    rcases List.mem_cons.mp hc with heq | hmem
    · subst heq
      have htmap : t.map (fun ch =>
          if ch.id == c.id then { ch with invoiceId := some invId }
          else ch) = t := by
        have hpt : ∀ ch ∈ t, (if ch.id == c.id then
            { ch with invoiceId := some invId } else ch) = ch := by
          intro ch hch
          rw [if_neg]
          simp only [beq_iff_eq]
          intro hcontra
          exact hnd.1 (List.mem_map.mpr ⟨ch, hch, hcontra⟩)
        rw [List.map_congr_left hpt]
        simp
      simp only [List.map_cons, htmap, beq_self_eq_true, if_true]
      unfold linkedChargeAmount
      simp only [List.filter_cons]
      have hPtrue : ((!({ c with invoiceId := some invId } : Charge).deleted &&
          ({ c with invoiceId := some invId } : Charge).invoiceId ==
            some invId &&
          ({ c with invoiceId := some invId } : Charge).currency == cur) :
            Bool) = true := by simp [hdel, hcur]
      have hPfalse : ((!c.deleted && c.invoiceId == some invId &&
          c.currency == cur) : Bool) = false := by simp [hnone]
      rw [hPtrue, hPfalse]
      simp only [if_true, Bool.false_eq_true, if_false, List.map_cons,
        List.sum_cons]
      ring
    · have hne : (h.id == c.id) = false := by
        simp only [beq_eq_false_iff_ne, ne_eq]
        intro hcontra
        exact hnd.1 (List.mem_map.mpr ⟨c, hmem, hcontra.symm⟩)
      simp only [List.map_cons, hne, Bool.false_eq_true, if_false]
      unfold linkedChargeAmount
      simp only [List.filter_cons]
      have ih2 := ih hnd.2 hmem
      unfold linkedChargeAmount at ih2
      cases hh : ((!h.deleted && h.invoiceId == some invId &&
          h.currency == cur) : Bool) with
      | true =>
        simp only [hh, if_true, List.map_cons, List.sum_cons]
        rw [ih2]
        ring
      | false =>
        simp only [hh, Bool.false_eq_true, if_false]
        exact ih2

lemma linkedTxnAmount_flip_one (ts : List Transaction) (t0 : Transaction)
    (invId : Nat) (cur : String)
    (hnd : (ts.map (fun x => x.id)).Nodup) (ht : t0 ∈ ts)
    (hnone : t0.invoiceId = none) (hsucc : t0.success = true)
    (hcur : t0.currency = cur) :
    linkedTxnAmount (ts.map (fun tr =>
        if tr.id == t0.id then { tr with invoiceId := some invId } else tr))
      invId cur = linkedTxnAmount ts invId cur + t0.amount := by
  induction ts with
  | nil => cases ht
  | cons h t ih =>
    simp only [List.map_cons, List.nodup_cons] at hnd
    rcases List.mem_cons.mp ht with heq | hmem
    · subst heq
      have htmap : t.map (fun tr =>
          if tr.id == t0.id then { tr with invoiceId := some invId }
          else tr) = t := by
        have hpt : ∀ tr ∈ t, (if tr.id == t0.id then
            { tr with invoiceId := some invId } else tr) = tr := by
          intro tr htr
          rw [if_neg]
          simp only [beq_iff_eq]
          intro hcontra
          exact hnd.1 (List.mem_map.mpr ⟨tr, htr, hcontra⟩)
        rw [List.map_congr_left hpt]
        simp
      simp only [List.map_cons, htmap, beq_self_eq_true, if_true]
      unfold linkedTxnAmount
      simp only [List.filter_cons]
      have hPtrue : ((({ t0 with invoiceId := some invId } :
            Transaction).success &&
          ({ t0 with invoiceId := some invId } : Transaction).invoiceId ==
            some invId &&
          ({ t0 with invoiceId := some invId } : Transaction).currency ==
            cur) : Bool) = true := by simp [hsucc, hcur]
      have hPfalse : ((t0.success && t0.invoiceId == some invId &&
          t0.currency == cur) : Bool) = false := by simp [hnone]
      rw [hPtrue, hPfalse]
      simp only [if_true, Bool.false_eq_true, if_false, List.map_cons,
        List.sum_cons]
      ring
    · have hne : (h.id == t0.id) = false := by
        simp only [beq_eq_false_iff_ne, ne_eq]
        intro hcontra
        exact hnd.1 (List.mem_map.mpr ⟨t0, hmem, hcontra.symm⟩)
      simp only [List.map_cons, hne, Bool.false_eq_true, if_false]
      unfold linkedTxnAmount
      simp only [List.filter_cons]
      have ih2 := ih hnd.2 hmem
      unfold linkedTxnAmount at ih2
      cases hh : ((h.success && h.invoiceId == some invId &&
          h.currency == cur) : Bool) with
      | true =>
        simp only [hh, if_true, List.map_cons, List.sum_cons]
        rw [ih2]
        ring
      | false =>
        simp only [hh, Bool.false_eq_true, if_false]
        exact ih2

lemma saveFund_charge_ids (s : BillingState) (invId : Nat) (f : Fund) :
    (saveFund s invId f).charges.map (fun c => c.id) =
      s.charges.map (fun c => c.id) := by
  cases f with
  | credit c =>
    simp only [saveFund, List.map_map]
    apply List.map_congr_left
    intro ch _
    simp only [Function.comp_apply]
    split <;> rfl
  | payment t => rfl

lemma saveFund_txn_ids (s : BillingState) (invId : Nat) (f : Fund) :
    (saveFund s invId f).transactions.map (fun t => t.id) =
      s.transactions.map (fun t => t.id) := by
  cases f with
  | credit c => rfl
  | payment t =>
    simp only [saveFund, List.map_map]
    apply List.map_congr_left
    intro tr _
    simp only [Function.comp_apply]
    split <;> rfl

lemma mem_map_fundKey_of_credit {fs : List Fund} {c : Charge}
    (h : Fund.credit c ∈ fs) : ((false : Bool), c.id) ∈ fs.map fundKey :=
  List.mem_map.mpr ⟨Fund.credit c, h, rfl⟩

lemma mem_map_fundKey_of_payment {fs : List Fund} {t : Transaction}
    (h : Fund.payment t ∈ fs) : ((true : Bool), t.id) ∈ fs.map fundKey :=
  List.mem_map.mpr ⟨Fund.payment t, h, rfl⟩

lemma foldl_saveFund_linked :
    ∀ (fs : List Fund) (s : BillingState) (invId : Nat) (cur : String),
      (s.charges.map (fun c => c.id)).Nodup →
      (s.transactions.map (fun t => t.id)).Nodup →
      (fs.map fundKey).Nodup →
      (∀ f ∈ fs, match f with
        | .credit c => c ∈ s.charges ∧ c.invoiceId = none ∧
            c.deleted = false ∧ c.currency = cur
        | .payment t => t ∈ s.transactions ∧ t.invoiceId = none ∧
            t.success = true ∧ t.currency = cur) →
      linkedChargeAmount
          ((fs.foldl (fun st f => saveFund st invId f) s).charges) invId cur =
        linkedChargeAmount s.charges invId cur + creditAmountSum fs ∧
      linkedTxnAmount
          ((fs.foldl (fun st f => saveFund st invId f) s).transactions)
          invId cur =
        linkedTxnAmount s.transactions invId cur + paymentAmountSum fs := by
  intro fs
  induction fs with
  | nil =>
    intro s invId cur _ _ _ _
    simp [creditAmountSum, paymentAmountSum]
  | cons f rest ih =>
    intro s invId cur hchnd htxnd hknd hfacts
    simp only [List.map_cons, List.nodup_cons] at hknd
    have hheads := hfacts f (by simp)
    have hrestfacts0 := fun g hg => hfacts g (List.mem_cons_of_mem f hg)
    simp only [List.foldl_cons]
    cases f with
    | credit c =>
      obtain ⟨hmem, hnone, hdel, hcurr⟩ := hheads
      have hstep : linkedChargeAmount
          ((saveFund s invId (Fund.credit c)).charges) invId cur =
            linkedChargeAmount s.charges invId cur + c.amount := by
        simp only [saveFund]
        exact linkedChargeAmount_flip_one s.charges c invId cur hchnd hmem
          hnone hdel hcurr
      have hchnd2 : ((saveFund s invId (Fund.credit c)).charges.map
          (fun c => c.id)).Nodup := by
        rw [saveFund_charge_ids]
        exact hchnd
      have htxnd2 : ((saveFund s invId (Fund.credit c)).transactions.map
          (fun t => t.id)).Nodup := by
        rw [saveFund_txn_ids]
        exact htxnd
      have hrestfacts : ∀ g ∈ rest, match g with
          | Fund.credit c2 => c2 ∈ (saveFund s invId (Fund.credit c)).charges ∧
              c2.invoiceId = none ∧ c2.deleted = false ∧ c2.currency = cur
          | Fund.payment t2 =>
              t2 ∈ (saveFund s invId (Fund.credit c)).transactions ∧
              t2.invoiceId = none ∧ t2.success = true ∧
                t2.currency = cur := by
        intro g hg
        cases g with
        | credit c2 =>
          obtain ⟨hm2, hn2, hd2, hc2⟩ := hrestfacts0 (Fund.credit c2) hg
          refine ⟨?_, hn2, hd2, hc2⟩
          simp only [saveFund]
          have hne : (c2.id == c.id) = false := by
            simp only [beq_eq_false_iff_ne, ne_eq]
            intro hcontra
            apply hknd.1
            have := @mem_map_fundKey_of_credit rest _ hg
            rwa [show fundKey (Fund.credit c) = (false, c.id) from rfl,
              ← hcontra]
          have : (if (c2.id == c.id) = true then
              { c2 with invoiceId := some invId } else c2) = c2 := by
            rw [if_neg (by simp [hne])]
          exact List.mem_map.mpr ⟨c2, hm2, this⟩
        | payment t2 =>
          obtain ⟨hm2, hn2, hs2, hc2⟩ := hrestfacts0 (Fund.payment t2) hg
          exact ⟨hm2, hn2, hs2, hc2⟩
      obtain ⟨ihc, iht⟩ := ih (saveFund s invId (Fund.credit c)) invId cur
        hchnd2 htxnd2 hknd.2 hrestfacts
      constructor
      · rw [ihc, hstep]
        simp only [creditAmountSum, List.filterMap_cons]
        simp only [List.sum_cons]
        ring
      · rw [iht]
        have : (saveFund s invId (Fund.credit c)).transactions =
            s.transactions := rfl
        rw [this]
        simp only [paymentAmountSum, List.filterMap_cons]
    | payment t =>
      obtain ⟨hmem, hnone, hsucc, hcurr⟩ := hheads
      have hstep : linkedTxnAmount
          ((saveFund s invId (Fund.payment t)).transactions) invId cur =
            linkedTxnAmount s.transactions invId cur + t.amount := by
        simp only [saveFund]
        exact linkedTxnAmount_flip_one s.transactions t invId cur htxnd hmem
          hnone hsucc hcurr
      have hchnd2 : ((saveFund s invId (Fund.payment t)).charges.map
          (fun c => c.id)).Nodup := by
        rw [saveFund_charge_ids]
        exact hchnd
      have htxnd2 : ((saveFund s invId (Fund.payment t)).transactions.map
          (fun t => t.id)).Nodup := by
        rw [saveFund_txn_ids]
        exact htxnd
      have hrestfacts : ∀ g ∈ rest, match g with
          | Fund.credit c2 =>
              c2 ∈ (saveFund s invId (Fund.payment t)).charges ∧
              c2.invoiceId = none ∧ c2.deleted = false ∧ c2.currency = cur
          | Fund.payment t2 =>
              t2 ∈ (saveFund s invId (Fund.payment t)).transactions ∧
              t2.invoiceId = none ∧ t2.success = true ∧
                t2.currency = cur := by
        intro g hg
        cases g with
        | credit c2 =>
          obtain ⟨hm2, hn2, hd2, hc2⟩ := hrestfacts0 (Fund.credit c2) hg
          exact ⟨hm2, hn2, hd2, hc2⟩
        | payment t2 =>
          obtain ⟨hm2, hn2, hs2, hc2⟩ := hrestfacts0 (Fund.payment t2) hg
          refine ⟨?_, hn2, hs2, hc2⟩
          simp only [saveFund]
          have hne : (t2.id == t.id) = false := by
            simp only [beq_eq_false_iff_ne, ne_eq]
            intro hcontra
            apply hknd.1
            have := @mem_map_fundKey_of_payment rest _ hg
            rwa [show fundKey (Fund.payment t) = (true, t.id) from rfl,
              ← hcontra]
          have : (if (t2.id == t.id) = true then
              { t2 with invoiceId := some invId } else t2) = t2 := by
            rw [if_neg (by simp [hne])]
          exact List.mem_map.mpr ⟨t2, hm2, this⟩
      obtain ⟨ihc, iht⟩ := ih (saveFund s invId (Fund.payment t)) invId cur
        hchnd2 htxnd2 hknd.2 hrestfacts
      constructor
      · rw [ihc]
        have : (saveFund s invId (Fund.payment t)).charges = s.charges := rfl
        rw [this]
        simp only [creditAmountSum, List.filterMap_cons]
      · rw [iht, hstep]
        simp only [paymentAmountSum, List.filterMap_cons]
        simp only [List.sum_cons]
        ring

lemma contribution_split : ∀ fs : List Fund,
    (∀ f ∈ fs, match f with
      | Fund.credit c => c.amount < 0
      | Fund.payment t => 0 < t.amount) →
    (fs.map Fund.contribution).sum =
      paymentAmountSum fs - creditAmountSum fs := by
  intro fs
  induction fs with
  | nil => intro _; simp [creditAmountSum, paymentAmountSum]
  | cons f rest ih =>
    intro hfacts
    have hihs := ih (fun g hg => hfacts g (List.mem_cons_of_mem f hg))
    cases f with
    | credit c =>
      have hneg : c.amount < 0 := hfacts (Fund.credit c) (by simp)
      have h1 : creditAmountSum (Fund.credit c :: rest) =
          c.amount + creditAmountSum rest := by
        unfold creditAmountSum
        simp [List.filterMap_cons]
      have h2 : paymentAmountSum (Fund.credit c :: rest) =
          paymentAmountSum rest := by
        unfold paymentAmountSum
        simp [List.filterMap_cons]
      simp only [List.map_cons, List.sum_cons]
      rw [h1, h2, hihs]
      have hcon : Fund.contribution (Fund.credit c) = -c.amount := by
        simp [Fund.contribution, hneg]
      rw [hcon]
      ring
    | payment t =>
      have hpos : 0 < t.amount := hfacts (Fund.payment t) (by simp)
      have h1 : creditAmountSum (Fund.payment t :: rest) =
          creditAmountSum rest := by
        unfold creditAmountSum
        simp [List.filterMap_cons]
      have h2 : paymentAmountSum (Fund.payment t :: rest) =
          t.amount + paymentAmountSum rest := by
        unfold paymentAmountSum
        simp [List.filterMap_cons]
      simp only [List.map_cons, List.sum_cons]
      rw [h1, h2, hihs]
      have hcon : Fund.contribution (Fund.payment t) = t.amount := by
        simp only [Fund.contribution]
        rw [if_neg (by omega : ¬ t.amount < 0)]
      rw [hcon]
      ring

lemma linkedChargeAmount_addCarryForward (s : BillingState)
    (a invId : Nat) (o : Int) (cur : String) :
    linkedChargeAmount ((addCarryForward s a invId o cur).charges) invId
      cur = linkedChargeAmount s.charges invId cur + o := by
  unfold addCarryForward linkedChargeAmount
  simp only [List.filter_append, List.map_append, List.sum_append]
  congr 1
  simp [List.filter_cons, CARRIED_FORWARD, CREDIT_REMAINING]

lemma rows_currency_of_single_due (s : BillingState) (invoiceId : Nat)
    (d : Int) (cur : String)
    (hdue : (invoiceDue s invoiceId).monies = [⟨d, cur⟩]) :
    (∀ ch ∈ s.charges, ch.deleted = false → ch.invoiceId = some invoiceId →
      ch.currency = cur) ∧
    (∀ t ∈ s.transactions, t.success = true → t.invoiceId = some invoiceId →
      t.currency = cur) := by
  have hcurs : (invoiceDue s invoiceId).currencies = [cur] := by
    unfold Total.currencies
    rw [hdue]
    rfl
  constructor
  · intro ch hch hdel hlink
    have hmm : (⟨ch.amount, ch.currency⟩ : Money) ∈ chargeMonies
        ((chargeObjects s).filter
          (fun c => c.invoiceId == some invoiceId)) := by
      unfold chargeMonies chargeObjects
      apply List.mem_map.mpr
      refine ⟨ch, ?_, rfl⟩
      exact List.mem_filter.mpr ⟨List.mem_filter.mpr ⟨hch, by simp [hdel]⟩,
        by simp [hlink]⟩
    have hck : ch.currency ∈ (total_amount (chargeMonies
        ((chargeObjects s).filter
          (fun c => c.invoiceId == some invoiceId)))).currencies :=
      (total_amount_mem_currencies _ _).mpr ⟨_, hmm, rfl⟩
    have hmemdue : ch.currency ∈ (invoiceDue s invoiceId).currencies := by
      unfold invoiceDue Total.sub
      rw [Total.currencies_add]
      exact List.mem_append_left _ hck
    rw [hcurs] at hmemdue
    simpa using hmemdue
  · intro t ht hsucc hlink
    have hmm : (⟨t.amount, t.currency⟩ : Money) ∈ transactionMonies
        ((transactionSuccessful s).filter
          (fun x => x.invoiceId == some invoiceId)) := by
      unfold transactionMonies transactionSuccessful
      apply List.mem_map.mpr
      refine ⟨t, ?_, rfl⟩
      exact List.mem_filter.mpr ⟨List.mem_filter.mpr ⟨ht, by simp [hsucc]⟩,
        by simp [hlink]⟩
    have hck : t.currency ∈ (total_amount (transactionMonies
        ((transactionSuccessful s).filter
          (fun x => x.invoiceId == some invoiceId)))).currencies :=
      (total_amount_mem_currencies _ _).mpr ⟨_, hmm, rfl⟩
    have hmemdue : t.currency ∈ (invoiceDue s invoiceId).currencies := by
      unfold invoiceDue Total.sub
      exact mem_currencies_add_right (by rwa [currencies_neg])
    rw [hcurs] at hmemdue
    simpa using hmemdue

lemma invoiceDue_eqZero_of_rows (s : BillingState) (invoiceId : Nat)
    (cur : String)
    (hch : ∀ ch ∈ s.charges, ch.deleted = false →
      ch.invoiceId = some invoiceId → ch.currency = cur)
    (htx : ∀ t ∈ s.transactions, t.success = true →
      t.invoiceId = some invoiceId → t.currency = cur)
    (hzero : (invoiceDue s invoiceId).get cur = 0) :
    Total.eqZero (invoiceDue s invoiceId) = true := by
  have hknd : (invoiceDue s invoiceId).keysNodup := by
    unfold invoiceDue
    exact Total.keysNodup_sub (total_amount_keysNodup _)
      (total_amount_keysNodup _)
  apply Total.eqZero_of_get_eq_zero hknd
  intro c
  by_cases hc : c = cur
  · rw [hc]; exact hzero
  · -- a currency other than cur cannot appear among the linked rows
    unfold invoiceDue
    rw [Total.get_sub, total_amount_get, total_amount_get]
    have h1 : (chargeMonies ((chargeObjects s).filter
        (fun x => x.invoiceId == some invoiceId))).filter
          (fun m => m.currency == c) = [] := by
      rw [List.filter_eq_nil_iff]
      intro m hm
      unfold chargeMonies chargeObjects at hm
      obtain ⟨ch, hchm, hchm2⟩ := List.mem_map.mp hm
      have hlk := List.mem_filter.mp hchm
      have hnd := List.mem_filter.mp hlk.1
      have hcur : ch.currency = cur :=
        hch ch hnd.1 (by simpa using hnd.2) (by simpa using hlk.2)
      rw [← hchm2]
      simp only [beq_iff_eq]
      rw [hcur]
      exact fun hcontra => hc (hcontra ▸ rfl)
    have h2 : (transactionMonies ((transactionSuccessful s).filter
        (fun x => x.invoiceId == some invoiceId))).filter
          (fun m => m.currency == c) = [] := by
      rw [List.filter_eq_nil_iff]
      intro m hm
      unfold transactionMonies transactionSuccessful at hm
      obtain ⟨t, htm, htm2⟩ := List.mem_map.mp hm
      have hlk := List.mem_filter.mp htm
      have hnd := List.mem_filter.mp hlk.1
      have hcur : t.currency = cur :=
        htx t hnd.1 (by simpa using hnd.2) (by simpa using hlk.2)
      rw [← htm2]
      simp only [beq_iff_eq]
      rw [hcur]
      exact fun hcontra => hc (hcontra ▸ rfl)
    rw [h1, h2]
    simp

/-- C4: when the remaining due amount after fund assignment is strictly
negative (overpayment), the invoice is marked PAID and the call returns
true; exactly two new charges are appended: a positive `CARRIED_FORWARD`
charge for the overpaid magnitude linked to this invoice, and an
unassigned negative `CREDIT_REMAINING` charge of the same magnitude; and
the invoice `due()` is zero afterwards. -/
theorem claim_C4_overpayment (s : BillingState) (invoiceId : Nat)
    (inv : Invoice) (d : Int) (cur : String)
    (hfind : s.invoices.find? (fun i => i.id == invoiceId) = some inv)
    (hstatus : inv.status = InvoiceStatus.PENDING)
    (hdue : (invoiceDue s invoiceId).monies = [⟨d, cur⟩])
    (hdpos : 0 < d)
    (hch : (s.charges.map (fun c => c.id)).Nodup)
    (htx : (s.transactions.map (fun t => t.id)).Nodup)
    (hover : d - (((fundsFor s inv.accountId cur).map Fund.contribution).take
      (stopCount d ((fundsFor s inv.accountId cur).map
        Fund.contribution))).sum < 0) :
    ∃ s4, assign_funds_to_invoice s invoiceId = some (s4, true) ∧
      (∃ inv2 ∈ s4.invoices, inv2.id = invoiceId ∧
        inv2.status = InvoiceStatus.PAID) ∧
      (∃ over front, 0 < over ∧
        over = (((fundsFor s inv.accountId cur).map Fund.contribution).take
          (stopCount d ((fundsFor s inv.accountId cur).map
            Fund.contribution))).sum - d ∧
        s4.charges = front ++
          [⟨s.nextId, inv.accountId, some invoiceId, over, cur,
              CARRIED_FORWARD, s.nextId, false⟩,
            ⟨s.nextId + 1, inv.accountId, none, -over, cur,
              CREDIT_REMAINING, s.nextId + 1, false⟩] ∧
        front.map (fun c => c.id) = s.charges.map (fun c => c.id)) ∧
      Total.eqZero (invoiceDue s4 invoiceId) = true := by
  have heq := assign_funds_eq s invoiceId inv d cur hfind hstatus hdue hdpos
  simp only at heq
  set funds := fundsFor s inv.accountId cur with hfundsdef
  set k := stopCount d (funds.map Fund.contribution) with hkdef
  set fs := funds.take k with hfsdef
  set s2v := (fs.foldl (fun st f => saveFund st invoiceId f) s) with hs2def
  set d2v := d - ((funds.map Fund.contribution).take k).sum with hd2def
  have hle : d2v ≤ 0 := le_of_lt hover
  rw [if_pos hle, if_pos hover, decide_eq_true hle] at heq
  have hs2charges : s2v.charges = s.charges.map (fun ch =>
      if (creditIds fs).contains ch.id then
        { ch with invoiceId := some invoiceId }
      else ch) := by
    rw [hs2def, foldl_saveFund_eq]
  have hs2txns : s2v.transactions = s.transactions.map (fun tr =>
      if (paymentIds fs).contains tr.id then
        { tr with invoiceId := some invoiceId }
      else tr) := by
    rw [hs2def, foldl_saveFund_eq]
  have hs2invoices : s2v.invoices = s.invoices := by
    rw [hs2def, foldl_saveFund_eq]
  have hs2next : s2v.nextId = s.nextId := by
    rw [hs2def, foldl_saveFund_eq]
  refine ⟨_, heq, ?_, ?_, ?_⟩
  · -- the invoice ends PAID
    have hbeq : (inv.id == invoiceId) = true := by
      have h2 := List.find?_some hfind
      simpa using h2
    have hmem : inv ∈ s.invoices := List.mem_of_find?_eq_some hfind
    refine ⟨{ inv with status := InvoiceStatus.PAID }, ?_, ?_, rfl⟩
    · show _ ∈ (markInvoicePaid s2v invoiceId).invoices
      unfold markInvoicePaid
      simp only [hs2invoices]
      apply List.mem_map.mpr
      refine ⟨inv, hmem, ?_⟩
      rw [if_pos hbeq]
    · simpa using hbeq
  · -- exactly the two carry-forward charges are appended
    refine ⟨-d2v, s2v.charges, by omega, by rw [hd2def]; ring, ?_, ?_⟩
    · show (addCarryForward (markInvoicePaid s2v invoiceId) inv.accountId
        invoiceId (-d2v) cur).charges = _
      unfold addCarryForward markInvoicePaid
      simp only
      rw [hs2next]
    · rw [hs2charges]
      simp only [List.map_map]
      apply List.map_congr_left
      intro ch _
      simp only [Function.comp_apply]
      split <;> rfl
  · -- due() is zero afterwards
    have hfssub : ∀ f ∈ fs, f ∈ funds := fun f hf => List.take_subset k funds hf
    have hfacts : ∀ f ∈ fs, match f with
        | Fund.credit c => c ∈ s.charges ∧ c.invoiceId = none ∧
            c.deleted = false ∧ c.currency = cur
        | Fund.payment t => t ∈ s.transactions ∧ t.invoiceId = none ∧
            t.success = true ∧ t.currency = cur := by
      intro f hf
      rcases mem_fundsFor (hfundsdef ▸ hfssub f hf) with
          ⟨c, rfl, h1, _, h3, _, h5, h6⟩ | ⟨t, rfl, h1, _, h3, _, h5, h6⟩
      · exact ⟨h1, h3, h6, h5⟩
      · exact ⟨h1, h3, h6, h5⟩
    have hsigns : ∀ f ∈ fs, match f with
        | Fund.credit c => c.amount < 0
        | Fund.payment t => 0 < t.amount := by
      intro f hf
      rcases mem_fundsFor (hfundsdef ▸ hfssub f hf) with
          ⟨c, rfl, _, h2, _, _, _, _⟩ | ⟨t, rfl, _, h2, _, _, _, _⟩
      · exact h2
      · exact h2
    have hknd : (fs.map fundKey).Nodup := by
      rw [hfsdef, List.map_take]
      exact (fundsFor_keys_nodup s inv.accountId cur hch htx).sublist
        (List.take_sublist _ _)
    obtain ⟨hlc, hlt⟩ := foldl_saveFund_linked fs s invoiceId cur hch htx
      hknd hfacts
    rw [← hs2def] at hlc hlt
    have hsplit : (fs.map Fund.contribution).sum =
        paymentAmountSum fs - creditAmountSum fs :=
      contribution_split fs hsigns
    have htake : (fs.map Fund.contribution) =
        ((funds.map Fund.contribution).take k) := by
      rw [hfsdef]
      exact List.map_take _ _ _
    have hd0 : linkedChargeAmount s.charges invoiceId cur -
        linkedTxnAmount s.transactions invoiceId cur = d := by
      rw [← invoiceDue_get]
      have := total_get_of_single (m := (⟨d, cur⟩ : Money)) hdue
      exact this
    set s4v := addCarryForward (markInvoicePaid s2v invoiceId)
      inv.accountId invoiceId (-d2v) cur with hs4def
    have hs4txns : s4v.transactions = s2v.transactions := rfl
    have hlc4 : linkedChargeAmount s4v.charges invoiceId cur =
        linkedChargeAmount s2v.charges invoiceId cur + (-d2v) := by
      rw [hs4def]
      exact linkedChargeAmount_addCarryForward (markInvoicePaid s2v invoiceId)
        inv.accountId invoiceId (-d2v) cur
    have hget0 : (invoiceDue s4v invoiceId).get cur = 0 := by
      rw [invoiceDue_get, hs4txns, hlc4, hlc, hlt]
      have hd2alt : d2v = d - (paymentAmountSum fs - creditAmountSum fs) := by
        rw [hd2def, ← htake, hsplit]
      omega
    -- rows of the final state all carry the invoice currency
    obtain ⟨hrowC, hrowT⟩ := rows_currency_of_single_due s invoiceId d cur hdue
    have hrowC4 : ∀ ch ∈ s4v.charges, ch.deleted = false →
        ch.invoiceId = some invoiceId → ch.currency = cur := by
      intro ch hchm hdel hlink
      have hsplit4 : s4v.charges = s2v.charges ++
          [⟨s.nextId, inv.accountId, some invoiceId, -d2v, cur,
              CARRIED_FORWARD, s.nextId, false⟩,
            ⟨s.nextId + 1, inv.accountId, none, -(-d2v), cur,
              CREDIT_REMAINING, s.nextId + 1, false⟩] := by
        rw [hs4def]
        unfold addCarryForward markInvoicePaid
        simp only
        rw [hs2next]
      rw [hsplit4] at hchm
      rcases List.mem_append.mp hchm with hm | hm
      · rw [hs2charges] at hm
        obtain ⟨ch0, hch0, hFch0⟩ := List.mem_map.mp hm
        by_cases hcond : ((creditIds fs).contains ch0.id) = true
        · rw [if_pos hcond] at hFch0
          obtain ⟨g, hg, hgkey⟩ := creditIds_mem_key (List.elem_iff.mp hcond)
          cases g with
          | credit c0 =>
            have hideq : c0.id = ch0.id := by
              have := congrArg Prod.snd hgkey
              simpa [fundKey] using this
            rcases mem_fundsFor (hfundsdef ▸ hfssub _ hg) with
                ⟨c1, hc1eq, hc1m, _, _, _, hc1cur, _⟩ | ⟨t1, ht1eq, _⟩
            · have hc01 : c0 = c1 := by
                injection hc1eq with h
              subst hc01
              have : ch0 = c0 :=
                List.inj_on_of_nodup_map hch hch0 hc1m (by rw [hideq])
              rw [← hFch0]
              show ch0.currency = cur
              rw [this]
              exact hc1cur
            · cases ht1eq
          | payment t0 =>
            have := congrArg Prod.fst hgkey
            simp [fundKey] at this
        · rw [if_neg hcond] at hFch0
          rw [← hFch0] at hdel hlink ⊢
          exact hrowC ch0 hch0 hdel hlink
      · simp only [List.mem_cons, List.not_mem_nil, or_false] at hm
        rcases hm with hm | hm
        · rw [hm]
        · rw [hm] at hlink
          cases hlink
    have hrowT4 : ∀ t ∈ s4v.transactions, t.success = true →
        t.invoiceId = some invoiceId → t.currency = cur := by
      intro t htm hsucc hlink
      rw [hs4txns, hs2txns] at htm
      obtain ⟨t0, ht0, hFt0⟩ := List.mem_map.mp htm
      by_cases hcond : ((paymentIds fs).contains t0.id) = true
      · rw [if_pos hcond] at hFt0
        obtain ⟨g, hg, hgkey⟩ := paymentIds_mem_key (List.elem_iff.mp hcond)
        cases g with
        | credit c0 =>
          have := congrArg Prod.fst hgkey
          simp [fundKey] at this
        | payment t1 =>
          have hideq : t1.id = t0.id := by
            have := congrArg Prod.snd hgkey
            simpa [fundKey] using this
          rcases mem_fundsFor (hfundsdef ▸ hfssub _ hg) with
              ⟨c1, hc1eq, _⟩ | ⟨t2, ht2eq, ht2m, _, _, _, ht2cur, _⟩
          · cases hc1eq
          · have ht12 : t1 = t2 := by
              injection ht2eq with h
            subst ht12
            have : t0 = t1 :=
              List.inj_on_of_nodup_map htx ht0 ht2m (by rw [hideq])
            rw [← hFt0]
            show t0.currency = cur
            rw [this]
            exact ht2cur
      · rw [if_neg hcond] at hFt0
        rw [← hFt0] at hsucc hlink ⊢
        exact hrowT t0 ht0 hsucc hlink
    exact invoiceDue_eqZero_of_rows s4v invoiceId cur hrowC4 hrowT4 hget0

theorem claim_C4_overpayment_witness :
    ∃ s4, assign_funds_to_invoice cxOverState 1 = some (s4, true) ∧
      (∃ inv2 ∈ s4.invoices, inv2.id = 1 ∧
        inv2.status = InvoiceStatus.PAID) ∧
      (∃ over front, 0 < over ∧
        over = (((fundsFor cxOverState 0 "CHF").map Fund.contribution).take
          (stopCount 40 ((fundsFor cxOverState 0 "CHF").map
            Fund.contribution))).sum - 40 ∧
        s4.charges = front ++
          [⟨cxOverState.nextId, 0, some 1, over, "CHF",
              CARRIED_FORWARD, cxOverState.nextId, false⟩,
            ⟨cxOverState.nextId + 1, 0, none, -over, "CHF",
              CREDIT_REMAINING, cxOverState.nextId + 1, false⟩] ∧
        front.map (fun c => c.id) = cxOverState.charges.map (fun c => c.id)) ∧
      Total.eqZero (invoiceDue s4 1) = true :=
  claim_C4_overpayment cxOverState 1 ⟨1, 0, 10, InvoiceStatus.PENDING, 1⟩ 40
    "CHF" (by decide) rfl (by decide) (by decide) (by decide) (by decide)
    (by decide)

lemma chainState_cons (s : BillingState) (inv : Invoice)
    (l : List Invoice) (s2 : BillingState) (b : Bool)
    (h : assign_funds_to_invoice s inv.id = some (s2, b)) :
    chainState s (inv :: l) = chainState s2 l := by
  simp [chainState, h]

lemma assignLoopAccount_spec (l : List Invoice) :
    ∀ (s s2 : BillingState) (ids : List Nat),
    assignLoopAccount s l = some (s2, ids) →
    ∃ k, k ≤ l.length ∧ ids = (l.take k).map (fun i => i.id) ∧
      paidChain s (l.take k) ∧
      ((k = l.length ∧ s2 = chainState s (l.take k)) ∨
        ∃ (hk : k < l.length) (s3 : BillingState),
          assign_funds_to_invoice (chainState s (l.take k))
            (l.get ⟨k, hk⟩).id = some (s3, false) ∧ s2 = s3) := by
  induction l with
  | nil =>
    intro s s2 ids h
    simp only [assignLoopAccount, Option.some.injEq, Prod.mk.injEq] at h
    obtain ⟨rfl, rfl⟩ := h
    exact ⟨0, by simp, by simp, by simp [paidChain],
      Or.inl ⟨rfl, by simp [chainState]⟩⟩
  | cons inv rest ih =>
    intro s s2 ids h
    simp only [assignLoopAccount] at h
    cases ha : assign_funds_to_invoice s inv.id with
    | none => rw [ha] at h; cases h
    | some p =>
      obtain ⟨sa, paid⟩ := p
      rw [ha] at h
      cases paid with
      | false =>
        simp only [Bool.false_eq_true, if_false, Option.some.injEq,
          Prod.mk.injEq] at h
        obtain ⟨rfl, rfl⟩ := h
        refine ⟨0, by simp, by simp, by simp [paidChain], Or.inr ?_⟩
        refine ⟨by simp, sa, ?_, rfl⟩
        simpa [chainState] using ha
      | true =>
        simp only [if_true] at h
        cases hrec : assignLoopAccount sa rest with
        | none => rw [hrec] at h; cases h
        | some q =>
          obtain ⟨s3, ids2⟩ := q
          rw [hrec] at h
          simp only [Option.some.injEq, Prod.mk.injEq] at h
          obtain ⟨rfl, rfl⟩ := h
          obtain ⟨k, hk, hids, hchain, hrest⟩ := ih sa s3 ids2 hrec
          refine ⟨k + 1, by simp [List.length_cons]; omega,
            by simp [List.take_succ_cons, hids], ?_, ?_⟩
          · rw [List.take_succ_cons]
            exact ⟨sa, ha, hchain⟩
          · rcases hrest with ⟨hkeq, hs⟩ | ⟨hklt, s4, hassign, hs⟩
            · left
              refine ⟨by simp [hkeq], ?_⟩
              rw [List.take_succ_cons, chainState_cons s inv _ sa true ha]
              exact hs
            · right
              refine ⟨by simp [List.length_cons]; omega, s4, ?_, hs⟩
              rw [List.take_succ_cons, chainState_cons s inv _ sa true ha]
              simpa using hassign

/-- C5: `assign_funds_to_account_pending_invoices` processes exactly the
account's PENDING invoices, in ascending due-date order, calling the
single-invoice fund assignment on each; the ids of the fully paid prefix
are returned and the loop stops at the first invoice that is not fully
paid, leaving every later pending invoice unattempted. -/
theorem claim_C5_cascade (s : BillingState) (accountId : Nat)
    (s2 : BillingState) (ids : List Nat)
    (h : assign_funds_to_account_pending_invoices s accountId =
      some (s2, ids)) :
    List.Sorted (fun a b => a.dueDate ≤ b.dueDate)
      (pendingByDueDate s accountId) ∧
    (∀ inv, inv ∈ pendingByDueDate s accountId ↔
      (inv ∈ s.invoices ∧ inv.status = InvoiceStatus.PENDING ∧
        inv.accountId = accountId)) ∧
    ∃ k, k ≤ (pendingByDueDate s accountId).length ∧
      ids = ((pendingByDueDate s accountId).take k).map (fun i => i.id) ∧
      paidChain s ((pendingByDueDate s accountId).take k) ∧
      ((k = (pendingByDueDate s accountId).length ∧
          s2 = chainState s ((pendingByDueDate s accountId).take k)) ∨
        ∃ (hk : k < (pendingByDueDate s accountId).length) (s3 : BillingState),
          assign_funds_to_invoice
            (chainState s ((pendingByDueDate s accountId).take k))
            ((pendingByDueDate s accountId).get ⟨k, hk⟩).id =
              some (s3, false) ∧ s2 = s3) := by
  refine ⟨sorted_orderBy _ _, ?_, ?_⟩
  · intro inv
    simp [pendingByDueDate, mem_orderBy, List.mem_filter, and_assoc]
  · exact assignLoopAccount_spec _ s s2 ids h

theorem claim_C5_cascade_witness :
    List.Sorted (fun a b => a.dueDate ≤ b.dueDate)
      (pendingByDueDate cxFundState 0) ∧
    (∀ inv, inv ∈ pendingByDueDate cxFundState 0 ↔
      (inv ∈ cxFundState.invoices ∧ inv.status = InvoiceStatus.PENDING ∧
        inv.accountId = 0)) ∧
    ∃ k, k ≤ (pendingByDueDate cxFundState 0).length ∧
      [1] = ((pendingByDueDate cxFundState 0).take k).map (fun i => i.id) ∧
      paidChain cxFundState ((pendingByDueDate cxFundState 0).take k) ∧
      ((k = (pendingByDueDate cxFundState 0).length ∧
          cxFundPaidState =
            chainState cxFundState
              ((pendingByDueDate cxFundState 0).take k)) ∨
        ∃ (hk : k < (pendingByDueDate cxFundState 0).length) (s3 : BillingState),
          assign_funds_to_invoice
            (chainState cxFundState
              ((pendingByDueDate cxFundState 0).take k))
            ((pendingByDueDate cxFundState 0).get ⟨k, hk⟩).id =
              some (s3, false) ∧ cxFundPaidState = s3) :=
  claim_C5_cascade cxFundState 0 cxFundPaidState [1] (by decide)

lemma mem_validCardsSorted (s : BillingState) (aid today : Nat)
    (cc : CreditCard) :
    cc ∈ validCardsSorted s aid today ↔
      (cc ∈ s.creditCards ∧ today ≤ cc.expiryDate ∧ cc.accountId = aid) := by
  simp only [validCardsSorted, mem_orderBy, validCardsQS, List.mem_filter,
    decide_eq_true_eq, beq_iff_eq, and_assoc]

/-- C6 counterexample: the account of `cxInactiveCardState` has no card
that is both ACTIVE and unexpired as of day 50 (its only card is
INACTIVE), yet `pay_with_account_credit_cards` does not fail: the INACTIVE
card is charged, a successful transaction is recorded and the invoice is
marked PAID, because `CreditCardQuerySet.valid` filters on the expiry date
only. -/
theorem claim_C6_counterexample :
    (∀ cc ∈ cxInactiveCardState.creditCards,
      ¬(cc.status = CardStatus.ACTIVE ∧ 50 ≤ cc.expiryDate)) ∧
    pay_with_account_credit_cards (fun _ => PSPOutcome.returns true) 50
        cxInactiveCardState 1 =
      .ok ({ cxInactiveCardState with
              invoices := [⟨1, 0, 10, .PAID, 1⟩],
              transactions := [⟨4, 0, some 1, 10, "CHF", true, "4444", 4⟩],
              nextId := 5 },
            some ⟨4, 0, some 1, 10, "CHF", true, "4444", 4⟩) := by
  constructor
  · decide
  · rfl

/-- C6 (amended): under the payment preconditions (invoice exists and is
PENDING, its account exists and is not CLOSED, the due amount is a single
positive money), `pay_with_account_credit_cards` fails with the
"No valid credit card on account." precondition error exactly when the
account has no unexpired card as of the call date — the card status plays
no role in validity, only the expiry date does. -/
theorem claim_C6_only_expiry_checked (psp : CreditCard → PSPOutcome)
    (today : Nat) (s : BillingState) (invoiceId : Nat)
    (inv : Invoice) (account : Account) (m : Money)
    (hfind : s.invoices.find? (fun i => i.id == invoiceId) = some inv)
    (hacc : s.accounts.find? (fun a => a.id == inv.accountId) = some account)
    (hopen : account.status ≠ AccountStatus.CLOSED)
    (hpend : inv.status = InvoiceStatus.PENDING)
    (hdue : (invoiceDue s invoiceId).monies = [m])
    (hpos : 0 < m.amount) :
    pay_with_account_credit_cards psp today s invoiceId =
        .error "No valid credit card on account." ↔
      ∀ cc ∈ s.creditCards, cc.accountId = inv.accountId →
        cc.expiryDate < today := by
  unfold pay_with_account_credit_cards
  simp only [hfind, hacc, hdue]
  rw [if_neg hopen, if_neg (by simp [hpend]),
    if_neg (by omega : ¬ m.amount ≤ 0)]
  cases hvc : validCardsSorted s inv.accountId today with
  | nil =>
    simp only [hvc]
    constructor
    · intro _ cc hm haid
      by_contra hlt
      push_neg at hlt
      have hmem : cc ∈ validCardsSorted s inv.accountId today :=
        (mem_validCardsSorted s inv.accountId today cc).mpr ⟨hm, hlt, haid⟩
      rw [hvc] at hmem
      cases hmem
    · intro _
      trivial
  | cons c cs =>
    simp only [hvc]
    constructor
    · intro hcontra
      cases hcontra
    · intro hall
      exfalso
      have hcmem : c ∈ validCardsSorted s inv.accountId today := by
        rw [hvc]
        exact List.mem_cons_self _ _
      obtain ⟨hm, hexp, haid⟩ :=
        (mem_validCardsSorted s inv.accountId today c).mp hcmem
      exact absurd (hall c hm haid) (by omega)

theorem claim_C6_only_expiry_checked_witness :
    pay_with_account_credit_cards (fun _ => PSPOutcome.returns true) 200
        cxInactiveCardState 1 =
        .error "No valid credit card on account." ↔
      ∀ cc ∈ cxInactiveCardState.creditCards, cc.accountId = 0 →
        cc.expiryDate < 200 :=
  claim_C6_only_expiry_checked (fun _ => PSPOutcome.returns true) 200
    cxInactiveCardState 1 ⟨1, 0, 10, InvoiceStatus.PENDING, 1⟩ ⟨0, .OPEN⟩
    ⟨10, "CHF"⟩ (by decide) (by decide) (by decide) rfl (by decide)
    (by decide)

lemma payLoop_cons_raises (psp : CreditCard → PSPOutcome) (aid invId : Nat)
    (m : Money) (s : BillingState) (card : CreditCard)
    (rest : List CreditCard) (h : psp card = PSPOutcome.raises) :
    payLoop psp aid invId m s (card :: rest) =
      payLoop psp aid invId m s rest := by
  simp [payLoop, h]

lemma payLoop_cons_true (psp : CreditCard → PSPOutcome) (aid invId : Nat)
    (m : Money) (s : BillingState) (card : CreditCard)
    (rest : List CreditCard) (h : psp card = PSPOutcome.returns true) :
    payLoop psp aid invId m s (card :: rest) =
      (markInvoicePaid
        { s with
            transactions := s.transactions ++
              [⟨s.nextId, aid, some invId, m.amount, m.currency, true,
                card.number, s.nextId⟩],
            nextId := s.nextId + 1 } invId,
        some ⟨s.nextId, aid, some invId, m.amount, m.currency, true,
          card.number, s.nextId⟩) := by
  simp [payLoop, h]

lemma payLoop_cons_false (psp : CreditCard → PSPOutcome) (aid invId : Nat)
    (m : Money) (s : BillingState) (card : CreditCard)
    (rest : List CreditCard) (h : psp card = PSPOutcome.returns false) :
    payLoop psp aid invId m s (card :: rest) =
      payLoop psp aid invId m
        { s with
            transactions := s.transactions ++
              [⟨s.nextId, aid, some invId, m.amount, m.currency, false,
                card.number, s.nextId⟩],
            nextId := s.nextId + 1 } rest := by
  simp [payLoop, h]

lemma payLoop_spec (psp : CreditCard → PSPOutcome) (aid invId : Nat)
    (m : Money) :
    ∀ (cards : List CreditCard) (s : BillingState),
    ((payLoop psp aid invId m s cards).1.transactions.length =
      s.transactions.length + attemptCount psp cards) ∧
    ((payLoop psp aid invId m s cards).2 = none ↔
      ∀ c ∈ cards, psp c ≠ PSPOutcome.returns true) ∧
    ((payLoop psp aid invId m s cards).2 = none →
      (payLoop psp aid invId m s cards).1.invoices = s.invoices) ∧
    (∀ t, (payLoop psp aid invId m s cards).2 = some t →
      t.success = true ∧ t.amount = m.amount ∧ t.currency = m.currency ∧
      t.invoiceId = some invId ∧
      (payLoop psp aid invId m s cards).1.transactions.getLast? = some t ∧
      (payLoop psp aid invId m s cards).1.invoices =
        s.invoices.map (fun inv => if inv.id == invId then
          { inv with status := InvoiceStatus.PAID } else inv)) := by
  intro cards
  induction cards with
  | nil =>
    intro s
    refine ⟨by simp [payLoop, attemptCount], by simp [payLoop], ?_, ?_⟩
    · intro _
      rfl
    · intro t ht
      simp [payLoop] at ht
  | cons card rest ih =>
    intro s
    cases hp : psp card with
    | raises =>
      rw [payLoop_cons_raises psp aid invId m s card rest hp]
      obtain ⟨ih1, ih2, ih3, ih4⟩ := ih s
      refine ⟨?_, ?_, ih3, ih4⟩
      · rw [ih1]
        simp [attemptCount, hp]
      · rw [ih2]
        constructor
        · intro hall c hm
          rcases List.mem_cons.mp hm with rfl | hm2
          · simp [hp]
          · exact hall c hm2
        · intro hall c hm
          exact hall c (List.mem_cons_of_mem _ hm)
    | returns success =>
      cases success with
      | true =>
        rw [payLoop_cons_true psp aid invId m s card rest hp]
        refine ⟨?_, ?_, ?_, ?_⟩
        · simp [markInvoicePaid, attemptCount, hp]
        · constructor
          · intro hcontra
            cases hcontra
          · intro hall
            exact absurd hp (hall card (List.mem_cons_self _ _))
        · intro hcontra
          cases hcontra
        · intro t ht
          have hteq := Option.some.inj ht
          refine ⟨by rw [← hteq], by rw [← hteq], by rw [← hteq],
            by rw [← hteq], ?_, rfl⟩
          rw [← hteq]
          show (s.transactions ++ [_]).getLast? = _
          rw [List.getLast?_concat]
      | false =>
        rw [payLoop_cons_false psp aid invId m s card rest hp]
        obtain ⟨ih1, ih2, ih3, ih4⟩ := ih
          { s with
              transactions := s.transactions ++
                [⟨s.nextId, aid, some invId, m.amount, m.currency, false,
                  card.number, s.nextId⟩],
              nextId := s.nextId + 1 }
        refine ⟨?_, ?_, ?_, ?_⟩
        · rw [ih1]
          simp only [attemptCount, hp, List.length_append,
            List.length_cons, List.length_nil]
          omega
        · rw [ih2]
          constructor
          · intro hall c hm
            rcases List.mem_cons.mp hm with rfl | hm2
            · simp [hp]
            · exact hall c hm2
          · intro hall c hm
            exact hall c (List.mem_cons_of_mem _ hm)
        · intro hnone
          rw [ih3 hnone]
        · intro t ht
          obtain ⟨h1, h2, h3, h4, h5, h6⟩ := ih4 t ht
          exact ⟨h1, h2, h3, h4, h5, by rw [h6]⟩

/-- C7 counterexample: on `cxPayState` one valid card is attempted, the
PSP call raises, and the call returns with the state unchanged — zero
`Transaction` rows are created for the raising attempt, because the
`Transaction.objects.create` call sits after the `psp.charge_credit_card`
call inside the `try` block. -/
theorem claim_C7_counterexample :
    (validCardsSorted cxPayState 0 50).length = 1 ∧
    pay_with_account_credit_cards (fun _ => PSPOutcome.raises) 50
      cxPayState 1 = .ok (cxPayState, none) := by
  constructor
  · decide
  · rfl

/-- C7 (amended): under the payment preconditions with a nonempty valid
card list, `pay_with_account_credit_cards` runs the card loop and returns
its outcome without raising; the loop records exactly one `Transaction`
per attempt whose PSP call returned (success or failure) — an attempt
whose PSP call raises records nothing — and stops at the first success;
`none` is returned exactly when no attempt succeeds (the invoice then
keeps its status), and a returned transaction is successful, is the last
one recorded, carries the due amount and the invoice id, and the invoice
is marked PAID. -/
theorem claim_C7_psp_outcomes (psp : CreditCard → PSPOutcome)
    (today : Nat) (s : BillingState) (invoiceId : Nat)
    (inv : Invoice) (account : Account) (m : Money)
    (hfind : s.invoices.find? (fun i => i.id == invoiceId) = some inv)
    (hacc : s.accounts.find? (fun a => a.id == inv.accountId) = some account)
    (hopen : account.status ≠ AccountStatus.CLOSED)
    (hpend : inv.status = InvoiceStatus.PENDING)
    (hdue : (invoiceDue s invoiceId).monies = [m])
    (hpos : 0 < m.amount)
    (hcards : validCardsSorted s inv.accountId today ≠ []) :
    pay_with_account_credit_cards psp today s invoiceId =
      .ok (payLoop psp inv.accountId invoiceId m s
        (validCardsSorted s inv.accountId today)) ∧
    ((payLoop psp inv.accountId invoiceId m s
        (validCardsSorted s inv.accountId today)).1.transactions.length =
      s.transactions.length +
        attemptCount psp (validCardsSorted s inv.accountId today)) ∧
    ((payLoop psp inv.accountId invoiceId m s
        (validCardsSorted s inv.accountId today)).2 = none ↔
      ∀ c ∈ validCardsSorted s inv.accountId today,
        psp c ≠ PSPOutcome.returns true) ∧
    ((payLoop psp inv.accountId invoiceId m s
        (validCardsSorted s inv.accountId today)).2 = none →
      (payLoop psp inv.accountId invoiceId m s
        (validCardsSorted s inv.accountId today)).1.invoices = s.invoices) ∧
    (∀ t, (payLoop psp inv.accountId invoiceId m s
        (validCardsSorted s inv.accountId today)).2 = some t →
      t.success = true ∧ t.amount = m.amount ∧ t.currency = m.currency ∧
      t.invoiceId = some invoiceId ∧
      (payLoop psp inv.accountId invoiceId m s
        (validCardsSorted s inv.accountId today)).1.transactions.getLast? =
          some t ∧
      (payLoop psp inv.accountId invoiceId m s
        (validCardsSorted s inv.accountId today)).1.invoices =
        s.invoices.map (fun i2 => if i2.id == invoiceId then
          { i2 with status := InvoiceStatus.PAID } else i2)) := by
  obtain ⟨h1, h2, h3, h4⟩ := payLoop_spec psp inv.accountId invoiceId m
    (validCardsSorted s inv.accountId today) s
  refine ⟨?_, h1, h2, h3, h4⟩
  unfold pay_with_account_credit_cards
  simp only [hfind, hacc, hdue]
  rw [if_neg hopen, if_neg (by simp [hpend]),
    if_neg (by omega : ¬ m.amount ≤ 0)]

theorem claim_C7_psp_outcomes_witness :
    pay_with_account_credit_cards (fun _ => PSPOutcome.returns true) 50
        cxPayState 1 =
      .ok (payLoop (fun _ => PSPOutcome.returns true) 0 1 ⟨10, "CHF"⟩
        cxPayState (validCardsSorted cxPayState 0 50)) ∧
    ((payLoop (fun _ => PSPOutcome.returns true) 0 1 ⟨10, "CHF"⟩
        cxPayState (validCardsSorted cxPayState 0 50)).1.transactions.length =
      cxPayState.transactions.length +
        attemptCount (fun _ => PSPOutcome.returns true)
          (validCardsSorted cxPayState 0 50)) ∧
    ((payLoop (fun _ => PSPOutcome.returns true) 0 1 ⟨10, "CHF"⟩
        cxPayState (validCardsSorted cxPayState 0 50)).2 = none ↔
      ∀ c ∈ validCardsSorted cxPayState 0 50,
        (fun _ => PSPOutcome.returns true) c ≠ PSPOutcome.returns true) ∧
    ((payLoop (fun _ => PSPOutcome.returns true) 0 1 ⟨10, "CHF"⟩
        cxPayState (validCardsSorted cxPayState 0 50)).2 = none →
      (payLoop (fun _ => PSPOutcome.returns true) 0 1 ⟨10, "CHF"⟩
        cxPayState (validCardsSorted cxPayState 0 50)).1.invoices =
          cxPayState.invoices) ∧
    (∀ t, (payLoop (fun _ => PSPOutcome.returns true) 0 1 ⟨10, "CHF"⟩
        cxPayState (validCardsSorted cxPayState 0 50)).2 = some t →
      t.success = true ∧ t.amount = (10 : Int) ∧ t.currency = "CHF" ∧
      t.invoiceId = some 1 ∧
      (payLoop (fun _ => PSPOutcome.returns true) 0 1 ⟨10, "CHF"⟩
        cxPayState (validCardsSorted cxPayState 0 50)).1.transactions.getLast?
          = some t ∧
      (payLoop (fun _ => PSPOutcome.returns true) 0 1 ⟨10, "CHF"⟩
        cxPayState (validCardsSorted cxPayState 0 50)).1.invoices =
        cxPayState.invoices.map (fun i2 => if i2.id == 1 then
          { i2 with status := InvoiceStatus.PAID } else i2)) :=
  claim_C7_psp_outcomes (fun _ => PSPOutcome.returns true) 50 cxPayState 1
    ⟨1, 0, 10, InvoiceStatus.PENDING, 1⟩ ⟨0, .OPEN⟩ ⟨10, "CHF"⟩
    (by decide) (by decide) (by decide) rfl (by decide) (by decide)
    (by decide)

/-- C8: the PSP gateway of `billing/psp.py` performs NO check on the
amount: charging or refunding a negative amount goes straight through to
the registered implementation and succeeds (the implementation observably
runs, echoing the object path), instead of failing with a precondition
error as the spec and the repository's own test suite
(`tests/test_psp.py`) demand; only a missing scheme registration is
rejected. -/
theorem claim_C8_no_amount_guard :
    psp_charge_credit_card [("my", myPSP)] "my:card1" ⟨-10, "CHF"⟩ "aref" =
      .ok (true, "my:payment_card1") ∧
    psp_refund_payment [("my", myPSP)] "my:pay1" ⟨-10, "CHF"⟩ "aref" =
      .ok (true, "my:refund_pay1") ∧
    psp_for_scheme [] "my" = .error "No PSP registered for scheme my" :=
  ⟨rfl, rfl, rfl⟩

lemma createLoop_inert (accountId dueDate : Nat) :
    ∀ (ms : List Money) (s : BillingState),
    chargeIdsOk s → zeroChargesUninvoiced s →
    chargeIdsOk (createLoop accountId dueDate s ms).1 ∧
    zeroChargesUninvoiced (createLoop accountId dueDate s ms).1 := by
  intro ms
  induction ms with
  | nil =>
    intro s hids h0
    exact ⟨hids, h0⟩
  | cons m rest ih =>
    intro s hids h0
    by_cases hm : 0 < m.amount
    · simp only [createLoop, if_pos hm]
      refine ih _ ⟨?_, ?_⟩ ?_
      · show ((s.charges.map _).map (fun c : Charge => c.id)).Nodup
        rw [List.map_map]
        have hfn : ∀ c ∈ s.charges,
            ((fun c : Charge => c.id) ∘ (fun c =>
              if invoicablePred accountId m.currency c then
                { c with invoiceId := some s.nextId }
              else c)) c = c.id := by
          intro c _
          show (if invoicablePred accountId m.currency c then
            { c with invoiceId := some s.nextId } else c).id = c.id
          by_cases hc : invoicablePred accountId m.currency c = true
          · rw [if_pos hc]
          · rw [if_neg hc]
        rw [List.map_congr_left hfn]
        exact hids.1
      · intro c hc
        show c.id < s.nextId + 1
        obtain ⟨c0, hc0, hF⟩ := List.mem_map.mp hc
        have hid : c.id = c0.id := by
          rw [← hF]
          by_cases hcp : invoicablePred accountId m.currency c0 = true
          · rw [if_pos hcp]
          · rw [if_neg hcp]
        rw [hid]
        have := hids.2 c0 hc0
        omega
      · intro c hc hca
        obtain ⟨c0, hc0, hF⟩ := List.mem_map.mp hc
        by_cases hcp : invoicablePred accountId m.currency c0 = true
        · exfalso
          have hpos0 := ((invoicablePred_iff _ _ _).mp hcp).2.2.2.1
          have hamt : c.amount = c0.amount := by
            rw [← hF]
            rw [if_pos hcp]
          omega
        · have hcc : c = c0 := by
            rw [← hF]
            rw [if_neg hcp]
          rw [hcc] at hca ⊢
          exact h0 c0 hc0 hca
    · simp only [createLoop, if_neg hm]
      exact ih s hids h0

lemma addCarryForward_inert (s : BillingState) (a j : Nat) (o : Int)
    (cur : String) (ho : o ≠ 0) (hids : chargeIdsOk s)
    (h0 : zeroChargesUninvoiced s) :
    chargeIdsOk (addCarryForward s a j o cur) ∧
    zeroChargesUninvoiced (addCarryForward s a j o cur) := by
  constructor
  · constructor
    · show ((s.charges ++ _).map (fun c => c.id)).Nodup
      rw [List.map_append]
      refine List.Nodup.append hids.1 (by simp) ?_
      intro x hx hx2
      obtain ⟨c, hc, rfl⟩ := List.mem_map.mp hx
      have hlt := hids.2 c hc
      rcases (by simpa using hx2 :
          c.id = s.nextId ∨ c.id = s.nextId + 1) with he | he <;> omega
    · intro c hc
      show c.id < s.nextId + 2
      rcases List.mem_append.mp hc with h1 | h2
      · have := hids.2 c h1
        omega
      · rcases (by simpa using h2 : c = _ ∨ c = _) with rfl | rfl
        · show s.nextId < s.nextId + 2
          omega
        · show s.nextId + 1 < s.nextId + 2
          omega
  · intro c hc hca
    rcases List.mem_append.mp hc with h1 | h2
    · exact h0 c h1 hca
    · exfalso
      rcases (by simpa using h2 : c = _ ∨ c = _) with rfl | rfl
      · exact ho (by simpa using hca)
      · have hno : -o = 0 := by simpa using hca
        exact ho (by omega)

lemma foldl_saveFund_inert (s : BillingState) (invId : Nat) (fs : List Fund)
    (hcred : ∀ c : Charge, Fund.credit c ∈ fs → c ∈ s.charges ∧
      c.amount < 0)
    (hids : chargeIdsOk s) (h0 : zeroChargesUninvoiced s) :
    chargeIdsOk (fs.foldl (fun st f => saveFund st invId f) s) ∧
    zeroChargesUninvoiced (fs.foldl (fun st f => saveFund st invId f) s) := by
  rw [foldl_saveFund_eq]
  constructor
  · constructor
    · show ((s.charges.map _).map (fun c : Charge => c.id)).Nodup
      rw [List.map_map]
      have hfn : ∀ c ∈ s.charges,
          ((fun c : Charge => c.id) ∘ (fun ch =>
            if (creditIds fs).contains ch.id then
              { ch with invoiceId := some invId }
            else ch)) c = c.id := by
        intro c _
        show (if (creditIds fs).contains c.id then
          { c with invoiceId := some invId } else c).id = c.id
        by_cases hc : ((creditIds fs).contains c.id) = true
        · rw [if_pos hc]
        · rw [if_neg hc]
      rw [List.map_congr_left hfn]
      exact hids.1
    · intro c hc
      show c.id < s.nextId
      obtain ⟨c0, hc0, hF⟩ := List.mem_map.mp hc
      have hid : c.id = c0.id := by
        rw [← hF]
        by_cases hcp : ((creditIds fs).contains c0.id) = true
        · rw [if_pos hcp]
        · rw [if_neg hcp]
      rw [hid]
      exact hids.2 c0 hc0
  · intro c hc hca
    obtain ⟨c0, hc0, hF⟩ := List.mem_map.mp hc
    by_cases hcp : ((creditIds fs).contains c0.id) = true
    · exfalso
      obtain ⟨g, hg, hgkey⟩ := creditIds_mem_key (List.elem_iff.mp hcp)
      cases g with
      | credit ccr =>
        have hid : ccr.id = c0.id := by
          have := congrArg Prod.snd hgkey
          simpa [fundKey] using this
        obtain ⟨hmem, hneg⟩ := hcred ccr hg
        have hceq : ccr = c0 :=
          List.inj_on_of_nodup_map hids.1 hmem hc0 (by rw [hid])
        have hamt : c.amount = c0.amount := by
          rw [← hF]
          rw [if_pos hcp]
        rw [hceq] at hneg
        omega
      | payment t =>
        have := congrArg Prod.fst hgkey
        simp [fundKey] at this
    · have hcc : c = c0 := by
        rw [← hF]
        rw [if_neg hcp]
      rw [hcc] at hca ⊢
      exact h0 c0 hc0 hca

lemma inertStep (sF : BillingState) (a j : Nat) (d2 : Int) (cur : String)
    (hF : chargeIdsOk sF ∧ zeroChargesUninvoiced sF) :
    chargeIdsOk (if d2 < 0 then
        addCarryForward (if d2 ≤ 0 then markInvoicePaid sF j else sF) a j
          (-d2) cur
      else (if d2 ≤ 0 then markInvoicePaid sF j else sF)) ∧
    zeroChargesUninvoiced (if d2 < 0 then
        addCarryForward (if d2 ≤ 0 then markInvoicePaid sF j else sF) a j
          (-d2) cur
      else (if d2 ≤ 0 then markInvoicePaid sF j else sF)) := by
  by_cases hlt : d2 < 0
  · rw [if_pos hlt, if_pos (by omega : d2 ≤ 0)]
    exact addCarryForward_inert (markInvoicePaid sF j) a j (-d2) cur
      (by omega) hF.1 hF.2
  · rw [if_neg hlt]
    by_cases hle : d2 ≤ 0
    · rw [if_pos hle]
      exact ⟨hF.1, hF.2⟩
    · rw [if_neg hle]
      exact hF

lemma assign_funds_inert (s : BillingState) (invId : Nat)
    (hids : chargeIdsOk s) (h0 : zeroChargesUninvoiced s) :
    ∀ s2 paid, assign_funds_to_invoice s invId = some (s2, paid) →
      chargeIdsOk s2 ∧ zeroChargesUninvoiced s2 := by
  intro s2 paid h
  unfold assign_funds_to_invoice at h
  cases hfind : s.invoices.find? (fun i => i.id == invId) with
  | none =>
    rw [hfind] at h
    cases h
  | some invoice =>
    rw [hfind] at h
    simp only [] at h
    by_cases hst : invoice.status ≠ InvoiceStatus.PENDING
    · rw [if_pos hst] at h
      obtain ⟨rfl, rfl⟩ : s = s2 ∧ false = paid := by simpa using h
      exact ⟨hids, h0⟩
    · rw [if_neg hst] at h
      cases hdue : (invoiceDue s invId).monies with
      | nil =>
        simp only [hdue] at h
        obtain ⟨rfl, rfl⟩ : s = s2 ∧ false = paid := by simpa using h
        exact ⟨hids, h0⟩
      | cons m tail =>
        cases tail with
        | nil =>
          simp only [hdue] at h
          by_cases hpos : 0 < m.amount
          · rw [if_pos hpos] at h
            rw [fundsLoop_eq invId (fundsFor s invoice.accountId m.currency)
              s m.amount hpos] at h
            simp only [Option.some.injEq, Prod.mk.injEq] at h
            obtain ⟨rfl, rfl⟩ := h
            refine inertStep _ invoice.accountId invId _ m.currency ?_
            refine foldl_saveFund_inert s invId _ ?_ hids h0
            intro c hcf
            have hmem : Fund.credit c ∈
                fundsFor s invoice.accountId m.currency :=
              List.take_subset _ _ hcf
            rcases mem_fundsFor hmem with
                ⟨c1, hc1eq, hc1m, hneg, _, _, _, _⟩ | ⟨t1, ht1eq, _⟩
            · have hcc : c = c1 := by
                injection hc1eq
              rw [hcc]
              exact ⟨hc1m, hneg⟩
            · cases ht1eq
          · rw [if_neg hpos] at h
            simp only [Option.some.injEq, Prod.mk.injEq] at h
            obtain ⟨rfl, rfl⟩ := h
            exact inertStep s invoice.accountId invId m.amount m.currency
              ⟨hids, h0⟩
        | cons m2 t2 =>
          simp only [hdue] at h
          obtain ⟨rfl, rfl⟩ : s = s2 ∧ false = paid := by simpa using h
          exact ⟨hids, h0⟩

lemma applyOp_inert (s : BillingState) (op : BillingOp)
    (hids : chargeIdsOk s) (h0 : zeroChargesUninvoiced s) :
    chargeIdsOk (applyOp s op) ∧ zeroChargesUninvoiced (applyOp s op) := by
  cases op with
  | createInv aid dd =>
    simp only [applyOp, create_invoices]
    exact createLoop_inert aid dd _ s hids h0
  | assignFunds invId =>
    simp only [applyOp]
    cases hasn : assign_funds_to_invoice s invId with
    | none =>
      simp only [hasn]
      exact ⟨hids, h0⟩
    | some p =>
      obtain ⟨s2, paid⟩ := p
      simp only [hasn]
      exact assign_funds_inert s invId hids h0 s2 paid hasn

/-- C10: zero-amount charges are inert. Starting from a state with
well-formed charge primary keys in which every zero-amount charge is
unassigned, after ANY sequence of `create_invoices` and
`assign_funds_to_invoice` operations every zero-amount charge is still
unassigned (invoice generation reassigns only charges with amount > 0 and
fund matching assigns only charges with amount < 0), and a zero-amount
charge can never appear among the credit funds considered by the fund
matcher. -/
theorem claim_C10_zero_charge_inert (s : BillingState)
    (ops : List BillingOp) (hids : chargeIdsOk s)
    (h0 : zeroChargesUninvoiced s) :
    zeroChargesUninvoiced (applyOps s ops) ∧
    (∀ (accountId : Nat) (cur : String) (c : Charge),
      Fund.credit c ∈ fundsFor (applyOps s ops) accountId cur →
        c.amount < 0) := by
  have main : ∀ (l : List BillingOp) (st : BillingState), chargeIdsOk st →
      zeroChargesUninvoiced st →
      chargeIdsOk (applyOps st l) ∧ zeroChargesUninvoiced (applyOps st l) := by
    intro l
    induction l with
    | nil =>
      intro st h1 h2
      exact ⟨h1, h2⟩
    | cons op rest ih =>
      intro st h1 h2
      have hstep := applyOp_inert st op h1 h2
      exact ih (applyOp st op) hstep.1 hstep.2
  refine ⟨(main ops s hids h0).2, ?_⟩
  intro accountId cur c hcf
  rcases mem_fundsFor hcf with
      ⟨c1, hc1eq, _, hneg, _, _, _, _⟩ | ⟨t1, ht1eq, _⟩
  · have hcc : c = c1 := by
      injection hc1eq
    rw [hcc]
    exact hneg
  · cases ht1eq

theorem claim_C10_zero_charge_inert_witness :
    zeroChargesUninvoiced
      (applyOps cxZeroState
        [BillingOp.createInv 0 5, BillingOp.assignFunds 2]) ∧
    (∀ (accountId : Nat) (cur : String) (c : Charge),
      Fund.credit c ∈ fundsFor
          (applyOps cxZeroState
            [BillingOp.createInv 0 5, BillingOp.assignFunds 2])
          accountId cur →
        c.amount < 0) :=
  claim_C10_zero_charge_inert cxZeroState
    [BillingOp.createInv 0 5, BillingOp.assignFunds 2] (by decide) (by decide)

end Billing
